import Mathlib

set_option autoImplicit false

namespace MoleMan

/-!
Shallow embedding of the autotiling core of the Mole-Man-2 repository:
the 8-direction `Orientation` bitset and the occupancy grid from
`src/tilemap/mod.rs`, the rule table / coordinate index from
`src/tilemap/sprite_config.rs`, and the per-rule tri-state requirements
from `src/tilemap/tile_requirements.rs`.
-/

/-- The 8-direction neighbour bitset of `src/tilemap/mod.rs` (a `bitflags!`
struct over `u8` with bits N=1, E=2, S=4, W=8, NW=16, SW=32, NE=64, SE=128).
Each boolean field records whether the corresponding bit is set. -/
@[ext]
structure Orientation where
  n : Bool
  e : Bool
  s : Bool
  w : Bool
  nw : Bool
  sw : Bool
  ne : Bool
  se : Bool
deriving DecidableEq, Repr

instance : Fintype Orientation :=
  Fintype.ofEquiv (Bool × Bool × Bool × Bool × Bool × Bool × Bool × Bool)
    { toFun := fun p => ⟨p.1, p.2.1, p.2.2.1, p.2.2.2.1, p.2.2.2.2.1,
        p.2.2.2.2.2.1, p.2.2.2.2.2.2.1, p.2.2.2.2.2.2.2⟩
      invFun := fun o => (o.n, o.e, o.s, o.w, o.nw, o.sw, o.ne, o.se)
      left_inv := fun _ => rfl
      right_inv := fun _ => rfl }

/-- Rust `Orientation::NONE` (bit pattern 0). -/
def Orientation.NONE : Orientation := ⟨false, false, false, false, false, false, false, false⟩

/-- Rust `Orientation::N`. -/
def Orientation.N : Orientation := ⟨true, false, false, false, false, false, false, false⟩

/-- Rust `Orientation::E`. -/
def Orientation.E : Orientation := ⟨false, true, false, false, false, false, false, false⟩

/-- Rust `Orientation::S`. -/
def Orientation.S : Orientation := ⟨false, false, true, false, false, false, false, false⟩

/-- Rust `Orientation::W`. -/
def Orientation.W : Orientation := ⟨false, false, false, true, false, false, false, false⟩

/-- Rust `Orientation::NW`. -/
def Orientation.NW : Orientation := ⟨false, false, false, false, true, false, false, false⟩

/-- Rust `Orientation::SW`. -/
def Orientation.SW : Orientation := ⟨false, false, false, false, false, true, false, false⟩

/-- Rust `Orientation::NE`. -/
def Orientation.NE : Orientation := ⟨false, false, false, false, false, false, true, false⟩

/-- Rust `Orientation::SE`. -/
def Orientation.SE : Orientation := ⟨false, false, false, false, false, false, false, true⟩

/-- Rust `Orientation::all()` (all 8 bits set). -/
def Orientation.all : Orientation := ⟨true, true, true, true, true, true, true, true⟩

/-- The underlying `u8` value (`self.bits`) determined by the bit assignment in
`src/tilemap/mod.rs`. -/
def Orientation.bits (o : Orientation) : Nat :=
  (cond o.n 1 0) + (cond o.e 2 0) + (cond o.s 4 0) + (cond o.w 8 0) +
    (cond o.nw 16 0) + (cond o.sw 32 0) + (cond o.ne 64 0) + (cond o.se 128 0)

/-- Bitwise union (`|` / `|=` / `insert` on the `bitflags` struct). -/
def Orientation.union (a b : Orientation) : Orientation :=
  ⟨a.n || b.n, a.e || b.e, a.s || b.s, a.w || b.w,
    a.nw || b.nw, a.sw || b.sw, a.ne || b.ne, a.se || b.se⟩

/-- Rust `bitflags` containment test: `a.contains(b)` holds when every bit set in `b`
is set in `a` (`a.bits & b.bits == b.bits`). -/
def Orientation.contains (a b : Orientation) : Bool :=
  (!b.n || a.n) && (!b.e || a.e) && (!b.s || a.s) && (!b.w || a.w) &&
    (!b.nw || a.nw) && (!b.sw || a.sw) && (!b.ne || a.ne) && (!b.se || a.se)

/-- Rust `Orientation::orient(off_x, off_y)` from `src/tilemap/mod.rs`: maps a unit
offset to its symbolic direction, and any other offset to `None`. -/
def Orientation.orient (off_x off_y : Int) : Option Orientation :=
  match off_x, off_y with
  | 1, 0 => some Orientation.E
  | -1, 0 => some Orientation.W
  | 0, 1 => some Orientation.N
  | 0, -1 => some Orientation.S
  | 1, 1 => some Orientation.NE
  | -1, 1 => some Orientation.NW
  | 1, -1 => some Orientation.SE
  | -1, -1 => some Orientation.SW
  | _, _ => none

/-- The per-rule tri-state pattern of `src/tilemap/tile_requirements.rs`:
`pub struct TileRequirements { pub dirs: [Option<bool>; 8] }`.
Index mapping (from the doc comment in the source):
0 = n, 1 = s, 2 = e, 3 = w, 4 = ne, 5 = nw, 6 = se, 7 = sw. -/
@[ext]
structure TileRequirements where
  dirs : Fin 8 → Option Bool

instance : DecidableEq TileRequirements :=
  fun a b => decidable_of_iff (a.dirs = b.dirs) (by cases a; cases b; simp)

/-- Whether orientation `o` asserts the direction stored at index `i` of a
`TileRequirements.dirs` array (index mapping of the source doc comment). -/
def Orientation.dirContains (o : Orientation) (i : Fin 8) : Bool :=
  match i with
  | ⟨0, _⟩ => o.n
  | ⟨1, _⟩ => o.s
  | ⟨2, _⟩ => o.e
  | ⟨3, _⟩ => o.w
  | ⟨4, _⟩ => o.ne
  | ⟨5, _⟩ => o.nw
  | ⟨6, _⟩ => o.se
  | ⟨7, _⟩ => o.sw

/-- Rust `TileRequirements::get_requirement(&self, o)` from
`src/tilemap/tile_requirements.rs`: a `match` against the eight single-direction
constants, returning `None` for every other `Orientation` value. -/
def TileRequirements.get_requirement (r : TileRequirements) (o : Orientation) :
    Option (Option Bool) :=
  if o = Orientation.N then some (r.dirs 0)
  else if o = Orientation.S then some (r.dirs 1)
  else if o = Orientation.E then some (r.dirs 2)
  else if o = Orientation.W then some (r.dirs 3)
  else if o = Orientation.NE then some (r.dirs 4)
  else if o = Orientation.NW then some (r.dirs 5)
  else if o = Orientation.SE then some (r.dirs 6)
  else if o = Orientation.SW then some (r.dirs 7)
  else none

/-- Rust `TileRequirements::get_requirement_mut(&mut self, o)` returns
`Result<&mut Option<bool>, ()>`; the mutable reference `&mut self.dirs[i]` is
embedded as the index `i` of the field it borrows. -/
def TileRequirements.get_requirement_mut (o : Orientation) : Except Unit (Fin 8) :=
  if o = Orientation.N then Except.ok 0
  else if o = Orientation.S then Except.ok 1
  else if o = Orientation.E then Except.ok 2
  else if o = Orientation.W then Except.ok 3
  else if o = Orientation.NE then Except.ok 4
  else if o = Orientation.NW then Except.ok 5
  else if o = Orientation.SE then Except.ok 6
  else if o = Orientation.SW then Except.ok 7
  else Except.error ()

/-- Rust `impl From<Orientation> for TileRequirements`: every direction becomes
`Some(contains(direction))`. -/
def TileRequirements.fromOrientation (o : Orientation) : TileRequirements :=
  ⟨![some (o.contains Orientation.N), some (o.contains Orientation.S),
      some (o.contains Orientation.E), some (o.contains Orientation.W),
      some (o.contains Orientation.NE), some (o.contains Orientation.NW),
      some (o.contains Orientation.SE), some (o.contains Orientation.SW)]⟩

/-- Modelled from the spec: the `From<TileRequirements> for Orientation`
conversion invoked as `c.into()` inside `sync_coordinates` is not among the
source files under `src/`; per the spec (§4.3, step 3) a fully concrete
requirement is converted to an Orientation by taking its true-bits only, with
the direction-index mapping documented in `tile_requirements.rs`. -/
def TileRequirements.toOrientation (r : TileRequirements) : Orientation where
  n := r.dirs 0 == some true
  s := r.dirs 1 == some true
  e := r.dirs 2 == some true
  w := r.dirs 3 == some true
  ne := r.dirs 4 == some true
  nw := r.dirs 5 == some true
  se := r.dirs 6 == some true
  sw := r.dirs 7 == some true

/-- Rust `GridCoordinate` from `src/tilemap/sprite_config.rs`. -/
@[ext]
structure GridCoordinate where
  x : Nat
  y : Nat
deriving DecidableEq, Repr

/-- Rust `GridCoordinate::new`. -/
def GridCoordinate.new (x y : Nat) : GridCoordinate := ⟨x, y⟩

/-- The derived index `CoordinateSet` of `src/tilemap/sprite_config.rs`:
`HashMap<u8, HashSet<GridCoordinate>>`, embedded as an association list from
the orientation's `bits` value to the list of registered sheet coordinates. -/
def CoordinateSet := List (Nat × List GridCoordinate)

instance : DecidableEq CoordinateSet :=
  inferInstanceAs (DecidableEq (List (Nat × List GridCoordinate)))

/-- Rust `HashMap::get` keyed by the raw `u8`. -/
def CoordinateSet.getSet : CoordinateSet → Nat → Option (List GridCoordinate)
  | [], _ => none
  | (k, s) :: rest, b => if k = b then some s else CoordinateSet.getSet rest b

/-- Rust `CoordinateSet::insert(&mut self, k, v)`: if a set is already registered
under `k.bits` add `v` to it (`HashSet::insert`, a no-op on duplicates),
otherwise register the singleton set `[v]` under `k.bits`. -/
def CoordinateSet.insert : CoordinateSet → Orientation → GridCoordinate → CoordinateSet
  | [], k, v => [(k.bits, [v])]
  | (k', s) :: rest, k, v =>
      if k' = k.bits then (k', if v ∈ s then s else v :: s) :: rest
      else (k', s) :: CoordinateSet.insert rest k v

/-- Rust `CoordinateSet::get(&self, index)`: look up the set registered under
`index.bits` and choose a random element of it (`iter().choose(&mut rng)`);
the random draw is abstracted as the index argument `r`, reduced modulo the
set size. Returns `None` when no element can be chosen. -/
def CoordinateSet.get (c : CoordinateSet) (index : Orientation) (r : Nat) :
    Option GridCoordinate :=
  match CoordinateSet.getSet c index.bits with
  | some s => s.get? (r % s.length)
  | none => none

/-- The candidate set registered for a concrete orientation key (empty when the
key is absent). -/
def CoordinateSet.candidates (c : CoordinateSet) (b : Nat) : List GridCoordinate :=
  (CoordinateSet.getSet c b).getD []

/-- Membership of an (orientation bits, sheet coordinate) pair in the index. -/
def CoordinateSet.memPair (c : CoordinateSet) (b : Nat) (g : GridCoordinate) : Prop :=
  ∃ s, CoordinateSet.getSet c b = some s ∧ g ∈ s

instance (c : CoordinateSet) (b : Nat) (g : GridCoordinate) :
    Decidable (CoordinateSet.memPair c b g) := by
  unfold CoordinateSet.memPair
  exact match CoordinateSet.getSet c b with
  | some s => decidable_of_iff (g ∈ s) (by simp)
  | none => isFalse (by simp)

/-- Rust `TilemapSpriteConfig` from `src/tilemap/sprite_config.rs`. The rule table
`orientations: HashMap<GridCoordinate, TileRequirements>` is embedded as an
association list (hash order is arbitrary); `coordinates` is the derived,
non-persisted index (`#[serde(skip)]`). -/
structure TilemapSpriteConfig where
  orientations : List (GridCoordinate × TileRequirements)
  coordinates : CoordinateSet
  grid_width : Nat
  grid_height : Nat
  tile_width : Nat
  tile_height : Nat

/-- Rust `TilemapSpriteConfig::new(grid_width, grid_height)`: empty rule table,
empty derived index, default tile size 8×8. -/
def TilemapSpriteConfig.new (grid_width grid_height : Nat) : TilemapSpriteConfig :=
  { orientations := []
    coordinates := []
    grid_width := grid_width
    grid_height := grid_height
    tile_width := 8
    tile_height := 8 }

/-- One pass of the wildcard-expansion loop body of `sync_coordinates`: if
direction `i` is a wildcard (`None`) in the rule `v` being expanded, replace
every requirement in the working set by two copies, one with `dirs[i]` forced
`Some(true)` and one forced `Some(false)`; otherwise leave the set unchanged. -/
def expandStep (v : TileRequirements) (coords : List TileRequirements) (i : Fin 8) :
    List TileRequirements :=
  if v.dirs i = Option.none then
    coords.flatMap fun c =>
      [⟨Function.update c.dirs i (some true)⟩, ⟨Function.update c.dirs i (some false)⟩]
  else coords

/-- The full wildcard expansion performed by `sync_coordinates` for one rule:
start from the singleton working set and run the loop body for each of the 8
directions in order. -/
def expand (v : TileRequirements) : List TileRequirements :=
  (List.finRange 8).foldl (expandStep v) [v]

/-- The number of wildcard (`None`) directions of a rule. -/
def wildcardCount (v : TileRequirements) : Nat :=
  ((List.finRange 8).filter fun i => v.dirs i = Option.none).length

/-- Rust `TilemapSpriteConfig::sync_coordinates`: for every authored rule, expand
its wildcards and register the rule's sheet coordinate under every concrete
orientation produced. Nothing is ever removed from the derived index. -/
def TilemapSpriteConfig.sync_coordinates (c : TilemapSpriteConfig) : TilemapSpriteConfig :=
  { c with
    coordinates :=
      c.orientations.foldl
        (fun acc kv =>
          (expand kv.2).foldl
            (fun a cc => CoordinateSet.insert a cc.toOrientation kv.1) acc)
        c.coordinates }

/-- Rust `TilemapSpriteConfig::find_tile_index(&self, o)`: delegate to
`CoordinateSet::get`, with the random draw abstracted as `r`. -/
def TilemapSpriteConfig.find_tile_index (c : TilemapSpriteConfig) (o : Orientation)
    (r : Nat) : Option GridCoordinate :=
  CoordinateSet.get c.coordinates o r

/-- A rule matches a concrete orientation when every non-wildcard direction of
the rule agrees with the orientation's containment of that direction. -/
def TileRequirements.matchesOrientation (v : TileRequirements) (o : Orientation) : Prop :=
  ∀ i : Fin 8, ∀ b : Bool, v.dirs i = some b → o.dirContains i = b

instance (v : TileRequirements) (o : Orientation) :
    Decidable (v.matchesOrientation o) := by
  unfold TileRequirements.matchesOrientation; infer_instance

theorem cond_eq_mul_toNat (b : Bool) (k : Nat) : cond b k 0 = k * b.toNat := by
  cases b <;> simp

theorem boolToNat_inj {a b : Bool} (h : a.toNat = b.toNat) : a = b := by
  cases a <;> cases b <;> simp_all

/-- Distinct orientations have distinct `bits` values: the bit assignment is a
base-2 positional encoding. -/
theorem Orientation.bits_inj {a b : Orientation} (h : a.bits = b.bits) : a = b := by
  simp only [Orientation.bits, cond_eq_mul_toNat] at h
  have ha1 := Bool.toNat_le a.n; have ha2 := Bool.toNat_le a.e
  have ha3 := Bool.toNat_le a.s; have ha4 := Bool.toNat_le a.w
  have ha5 := Bool.toNat_le a.nw; have ha6 := Bool.toNat_le a.sw
  have ha7 := Bool.toNat_le a.ne; have ha8 := Bool.toNat_le a.se
  have hb1 := Bool.toNat_le b.n; have hb2 := Bool.toNat_le b.e
  have hb3 := Bool.toNat_le b.s; have hb4 := Bool.toNat_le b.w
  have hb5 := Bool.toNat_le b.nw; have hb6 := Bool.toNat_le b.sw
  have hb7 := Bool.toNat_le b.ne; have hb8 := Bool.toNat_le b.se
  ext <;> apply boolToNat_inj <;> omega

theorem Orientation.dirContains_toOrientation (c : TileRequirements) (i : Fin 8) :
    c.toOrientation.dirContains i = (c.dirs i == some true) := by
  fin_cases i <;> rfl

theorem Orientation.eq_of_dirContains
    {a b : Orientation} (h : ∀ i, a.dirContains i = b.dirContains i) : a = b := by
  ext
  · exact h ⟨0, by omega⟩
  · exact h ⟨2, by omega⟩
  · exact h ⟨1, by omega⟩
  · exact h ⟨3, by omega⟩
  · exact h ⟨5, by omega⟩
  · exact h ⟨7, by omega⟩
  · exact h ⟨4, by omega⟩
  · exact h ⟨6, by omega⟩

/-! ### Wildcard-expansion lemmas -/

theorem mem_expandStep {v : TileRequirements} {coords : List TileRequirements}
    {i : Fin 8} {c : TileRequirements} :
    c ∈ expandStep v coords i ↔
      (if v.dirs i = Option.none
       then ∃ c0 ∈ coords, ∃ b : Bool, c = ⟨Function.update c0.dirs i (some b)⟩
       else c ∈ coords) := by
  unfold expandStep
  split
  · simp only [List.mem_flatMap, List.mem_cons, List.not_mem_nil, or_false]
    constructor
    · rintro ⟨c0, hc0, hc | hc⟩
      · exact ⟨c0, hc0, true, hc⟩
      · exact ⟨c0, hc0, false, hc⟩
    · rintro ⟨c0, hc0, b, hb⟩
      cases b
      · exact ⟨c0, hc0, Or.inr hb⟩
      · exact ⟨c0, hc0, Or.inl hb⟩
  · rfl

/-- Rust `c` arises from `c0` by the expansion loop run over the index list `l`:
every wildcard index of `v` that occurs in `l` has been forced to a concrete
value, and every other index is untouched. -/
def isExpansionOf (v : TileRequirements) (l : List (Fin 8))
    (c0 c : TileRequirements) : Prop :=
  (∀ i, i ∈ l → v.dirs i = Option.none → ∃ b : Bool, c.dirs i = some b) ∧
  (∀ i, ¬(i ∈ l ∧ v.dirs i = Option.none) → c.dirs i = c0.dirs i)

theorem mem_foldl_expandStep (v : TileRequirements) (l : List (Fin 8)) :
    ∀ (init : List TileRequirements) (c : TileRequirements),
    c ∈ l.foldl (expandStep v) init ↔ ∃ c0 ∈ init, isExpansionOf v l c0 c := by
  induction l with
  | nil =>
    intro init c
    simp only [List.foldl_nil, isExpansionOf]
    constructor
    · intro hc
      exact ⟨c, hc, fun i hi => absurd hi (List.not_mem_nil i), fun i _ => rfl⟩
    · rintro ⟨c0, hc0, -, h2⟩
      have hcc : c = c0 := by
        ext i : 2
        exact h2 i (by simp)
      rwa [hcc]
  | cons i l ih =>
    intro init c
    rw [List.foldl_cons, ih]
    by_cases hw : v.dirs i = Option.none
    · constructor
      · rintro ⟨c1, hc1, hexp⟩
        rw [mem_expandStep, if_pos hw] at hc1
        obtain ⟨c0, hc0, b, rfl⟩ := hc1
        refine ⟨c0, hc0, ?_, ?_⟩
        · intro j hj hwj
          rcases List.mem_cons.mp hj with rfl | hj'
          · by_cases hil : j ∈ l
            · exact hexp.1 j hil hwj
            · refine ⟨b, ?_⟩
              have h2 := hexp.2 j (fun hc => hil hc.1)
              rw [h2]
              simp
          · exact hexp.1 j hj' hwj
        · intro j hj
          have hji : j ≠ i := by
            rintro rfl
            exact hj ⟨List.mem_cons_self _ _, hw⟩
          have h2 := hexp.2 j (fun hc => hj ⟨List.mem_cons_of_mem _ hc.1, hc.2⟩)
          rw [h2]
          simp [Function.update_noteq hji]
      · rintro ⟨c0, hc0, hexp⟩
        obtain ⟨b, hb⟩ := hexp.1 i (List.mem_cons_self _ _) hw
        refine ⟨⟨Function.update c0.dirs i (some b)⟩, ?_, ?_, ?_⟩
        · rw [mem_expandStep, if_pos hw]
          exact ⟨c0, hc0, b, rfl⟩
        · intro j hj hwj
          exact hexp.1 j (List.mem_cons_of_mem _ hj) hwj
        · intro j hj
          by_cases hji : j = i
          · subst hji
            rw [hb]
            simp
          · have h2 := hexp.2 j (by
              rintro ⟨hjl, hwj⟩
              rcases List.mem_cons.mp hjl with rfl | hj'
              · exact hji rfl
              · exact hj ⟨hj', hwj⟩)
            rw [h2]
            simp [Function.update_noteq hji]
    · have hstep : expandStep v init i = init := by
        unfold expandStep
        rw [if_neg hw]
      rw [hstep]
      constructor <;> rintro ⟨c0, hc0, h1, h2⟩
      · refine ⟨c0, hc0, ?_, ?_⟩
        · intro j hj hwj
          rcases List.mem_cons.mp hj with rfl | hj'
          · exact absurd hwj hw
          · exact h1 j hj' hwj
        · intro j hj
          exact h2 j (fun hc => hj ⟨List.mem_cons_of_mem _ hc.1, hc.2⟩)
      · refine ⟨c0, hc0, ?_, ?_⟩
        · intro j hj hwj
          exact h1 j (List.mem_cons_of_mem _ hj) hwj
        · intro j hj
          apply h2 j
          rintro ⟨hjl, hwj⟩
          rcases List.mem_cons.mp hjl with rfl | hj'
          · exact hw hwj
          · exact hj ⟨hj', hwj⟩

/-- Membership in the expansion of a rule: exactly the requirement vectors that
force every wildcard of `v` to some concrete value and copy every non-wildcard
entry of `v`. -/
theorem mem_expand {v c : TileRequirements} :
    c ∈ expand v ↔
      (∀ i, v.dirs i = Option.none → ∃ b : Bool, c.dirs i = some b) ∧
      (∀ i, v.dirs i ≠ Option.none → c.dirs i = v.dirs i) := by
  unfold expand
  rw [mem_foldl_expandStep]
  constructor
  · rintro ⟨c0, hc0, h1, h2⟩
    have hc0v : c0 = v := by simpa using hc0
    subst hc0v
    exact ⟨fun i hi => h1 i (List.mem_finRange i) hi,
      fun i hi => h2 i (fun hc => hi hc.2)⟩
  · rintro ⟨h1, h2⟩
    refine ⟨v, by simp, fun i _ hw => h1 i hw, fun i hi => ?_⟩
    exact h2 i (fun hw => hi ⟨List.mem_finRange i, hw⟩)

theorem length_expandStep (v : TileRequirements) (coords : List TileRequirements)
    (i : Fin 8) :
    (expandStep v coords i).length =
      if v.dirs i = Option.none then 2 * coords.length else coords.length := by
  unfold expandStep
  split
  · induction coords with
    | nil => rfl
    | cons a rest ih =>
      rw [List.flatMap_cons, List.length_append, ih]
      simp only [List.length_cons, List.length_nil]
      omega
  · rfl

theorem length_foldl_expandStep (v : TileRequirements) (l : List (Fin 8)) :
    ∀ init : List TileRequirements,
    (l.foldl (expandStep v) init).length =
      init.length * 2 ^ (l.filter (fun i => v.dirs i = Option.none)).length := by
  induction l with
  | nil => intro init; simp
  | cons i l ih =>
    intro init
    rw [List.foldl_cons, ih, length_expandStep]
    by_cases hw : v.dirs i = Option.none
    · rw [if_pos hw]
      simp only [List.filter_cons, hw, List.length_cons, pow_succ]
      simp
      ring
    · rw [if_neg hw]
      simp [List.filter_cons, hw]

/-- The expansion of a rule with `k` wildcards has exactly `2 ^ k` members. -/
theorem length_expand (v : TileRequirements) :
    (expand v).length = 2 ^ wildcardCount v := by
  unfold expand wildcardCount
  rw [length_foldl_expandStep]
  simp

theorem update_mk_inj {i : Fin 8} {a c : TileRequirements} {x y : Option Bool}
    (ha : a.dirs i = Option.none) (hc : c.dirs i = Option.none)
    (hd : Function.update a.dirs i x = Function.update c.dirs i y) :
    a = c := by
  ext j : 2
  by_cases hji : j = i
  · subst hji
    rw [ha, hc]
  · have hj := congrFun hd j
    rwa [Function.update_noteq hji, Function.update_noteq hji] at hj

theorem nodup_flatMap_update (i : Fin 8) (init : List TileRequirements)
    (hnone : ∀ c ∈ init, c.dirs i = Option.none) (hnd : init.Nodup) :
    (init.flatMap fun c =>
      ([⟨Function.update c.dirs i (some true)⟩,
        ⟨Function.update c.dirs i (some false)⟩] : List TileRequirements)).Nodup := by
  induction init with
  | nil => simp
  | cons a rest ih =>
    rw [List.flatMap_cons, List.nodup_append]
    have hna : a.dirs i = Option.none := hnone a (List.mem_cons_self _ _)
    have hnrest : ∀ c ∈ rest, c.dirs i = Option.none :=
      fun c hc => hnone c (List.mem_cons_of_mem _ hc)
    refine ⟨?_, ih hnrest (List.Nodup.of_cons hnd), ?_⟩
    · refine List.nodup_cons.mpr ⟨?_, by simp⟩
      simp only [List.mem_singleton]
      intro hteq
      have hv := congrFun (congrArg TileRequirements.dirs hteq) i
      simp at hv
    · intro z hz hz'
      rw [List.mem_flatMap] at hz'
      obtain ⟨c, hcrest, hzc⟩ := hz'
      have hnc : c.dirs i = Option.none := hnrest c hcrest
      have hac : a = c := by
        rcases (by simpa using hz : _ ∨ _) with rfl | rfl <;>
          rcases (by simpa using hzc : _ ∨ _) with hz2 | hz2 <;>
          exact update_mk_inj hna hnc hz2
      exact (List.nodup_cons.mp hnd).1 (hac ▸ hcrest)

theorem nodup_foldl_expandStep (v : TileRequirements) (l : List (Fin 8)) :
    ∀ init : List TileRequirements, l.Nodup →
      (∀ c ∈ init, ∀ j ∈ l, c.dirs j = v.dirs j) → init.Nodup →
      (l.foldl (expandStep v) init).Nodup := by
  induction l with
  | nil => intro init _ _ h; simpa using h
  | cons i l ih =>
    intro init hl hinit hnd
    rw [List.foldl_cons]
    have hl' := List.nodup_cons.mp hl
    refine ih (expandStep v init i) hl'.2 ?_ ?_
    · intro c hc j hj
      unfold expandStep at hc
      by_cases hw : v.dirs i = Option.none
      · rw [if_pos hw, List.mem_flatMap] at hc
        obtain ⟨c0, hc0, hcm⟩ := hc
        have hji : j ≠ i := fun h => hl'.1 (h ▸ hj)
        have hbase := hinit c0 hc0 j (List.mem_cons_of_mem _ hj)
        rcases (by simpa using hcm : _ ∨ _) with rfl | rfl <;>
          simpa [Function.update_noteq hji] using hbase
      · rw [if_neg hw] at hc
        exact hinit c hc j (List.mem_cons_of_mem _ hj)
    · unfold expandStep
      by_cases hw : v.dirs i = Option.none
      · rw [if_pos hw]
        refine nodup_flatMap_update i init ?_ hnd
        intro c hc
        rw [hinit c hc i (List.mem_cons_self _ _)]
        exact hw
      · rw [if_neg hw]
        exact hnd

theorem nodup_expand (v : TileRequirements) : (expand v).Nodup := by
  refine nodup_foldl_expandStep v (List.finRange 8) [v] (List.nodup_finRange 8) ?_
    (List.nodup_singleton v)
  intro c hc j _
  have : c = v := by simpa using hc
  rw [this]

/-- The concrete orientations produced for a rule are exactly the orientations
the rule matches. -/
theorem mem_map_toOrientation {v : TileRequirements} {o : Orientation} :
    o ∈ (expand v).map TileRequirements.toOrientation ↔ v.matchesOrientation o := by
  rw [List.mem_map]
  constructor
  · rintro ⟨c, hc, rfl⟩
    intro i b hib
    have hcv : c.dirs i = v.dirs i :=
      (mem_expand.mp hc).2 i (by rw [hib]; exact Option.some_ne_none b)
    rw [Orientation.dirContains_toOrientation, hcv, hib]
    cases b <;> rfl
  · intro h
    refine ⟨⟨fun i => some (o.dirContains i)⟩, mem_expand.mpr ⟨?_, ?_⟩, ?_⟩
    · intro i _
      exact ⟨o.dirContains i, rfl⟩
    · intro i hne
      rcases Option.ne_none_iff_exists'.mp hne with ⟨b, hb⟩
      rw [hb]
      show some (o.dirContains i) = some b
      rw [h i b hb]
    · apply Orientation.eq_of_dirContains
      intro i
      rw [Orientation.dirContains_toOrientation]
      show (some (o.dirContains i) == some true) = o.dirContains i
      cases o.dirContains i <;> rfl

theorem toOrientation_inj_on_expand {v c c' : TileRequirements}
    (hc : c ∈ expand v) (hc' : c' ∈ expand v)
    (h : c.toOrientation = c'.toOrientation) : c = c' := by
  obtain ⟨h1, h2⟩ := mem_expand.mp hc
  obtain ⟨h1', h2'⟩ := mem_expand.mp hc'
  ext i : 2
  by_cases hw : v.dirs i = Option.none
  · obtain ⟨b, hb⟩ := h1 i hw
    obtain ⟨b', hb'⟩ := h1' i hw
    have hdc := congrFun (congrArg Orientation.dirContains h) i
    rw [Orientation.dirContains_toOrientation, Orientation.dirContains_toOrientation,
      hb, hb'] at hdc
    have hbb : b = b' := by cases b <;> cases b' <;> simp_all
    rw [hb, hb', hbb]
  · rw [h2 i hw, h2' i hw]

theorem nodup_map_toOrientation (v : TileRequirements) :
    ((expand v).map TileRequirements.toOrientation).Nodup := by
  refine (nodup_expand v).map_on ?_
  intro x hx y hy hxy
  exact toOrientation_inj_on_expand hx hy hxy

/-! ### CoordinateSet lemmas -/

theorem memPair_nil (b : Nat) (g : GridCoordinate) :
    ¬ CoordinateSet.memPair [] b g := by
  rintro ⟨s, hs, -⟩
  simp [CoordinateSet.getSet] at hs

theorem getSet_cons (k : Nat) (s : List GridCoordinate) (rest : CoordinateSet)
    (b : Nat) :
    CoordinateSet.getSet ((k, s) :: rest) b =
      if k = b then some s else CoordinateSet.getSet rest b := rfl

theorem memPair_cons {k : Nat} {s : List GridCoordinate} {rest : CoordinateSet}
    {b : Nat} {g : GridCoordinate} :
    CoordinateSet.memPair ((k, s) :: rest) b g ↔
      (if k = b then g ∈ s else CoordinateSet.memPair rest b g) := by
  unfold CoordinateSet.memPair
  rw [getSet_cons]
  by_cases hk : k = b
  · simp [hk]
  · simp [hk, CoordinateSet.memPair]

/-- Rust `CoordinateSet::insert` adds the given pair and preserves every pair
already present. -/
theorem memPair_insert (c : CoordinateSet) (o : Orientation) (g : GridCoordinate)
    (b : Nat) (g' : GridCoordinate) :
    CoordinateSet.memPair (CoordinateSet.insert c o g) b g' ↔
      CoordinateSet.memPair c b g' ∨ (b = o.bits ∧ g' = g) := by
  induction c with
  | nil =>
    unfold CoordinateSet.insert
    rw [memPair_cons]
    by_cases hb : o.bits = b
    · simp [hb, memPair_nil, eq_comm]
    · simp only [if_neg hb]
      constructor
      · intro h
        exact absurd h (memPair_nil b g')
      · rintro (h | ⟨rfl, rfl⟩)
        · exact absurd h (memPair_nil b g')
        · exact absurd rfl hb
  | cons kv rest ih =>
    obtain ⟨k', s⟩ := kv
    unfold CoordinateSet.insert
    by_cases h1 : k' = o.bits
    · rw [if_pos h1, memPair_cons, memPair_cons]
      by_cases h2 : k' = b
      · subst h2
        rw [if_pos rfl, if_pos rfl]
        by_cases hgs : g ∈ s
        · simp only [if_pos hgs]
          constructor
          · intro h
            exact Or.inl h
          · rintro (h | ⟨-, rfl⟩)
            · exact h
            · exact hgs
        · simp only [if_neg hgs, List.mem_cons]
          constructor
          · rintro (rfl | h)
            · exact Or.inr ⟨h1, rfl⟩
            · exact Or.inl h
          · rintro (h | ⟨-, rfl⟩)
            · exact Or.inr h
            · exact Or.inl rfl
      · rw [if_neg h2, if_neg h2]
        have hbo : b ≠ o.bits := fun hb => h2 (h1.trans hb.symm)
        simp [hbo]
    · rw [if_neg h1, memPair_cons, memPair_cons]
      by_cases h2 : k' = b
      · have hbo : b ≠ o.bits := fun hb => h1 (h2.trans hb)
        simp [h2, hbo]
      · rw [if_neg h2, if_neg h2]
        exact ih

theorem memPair_foldl_insert (g0 : GridCoordinate) (l : List TileRequirements) :
    ∀ (a : CoordinateSet) (b : Nat) (g : GridCoordinate),
    CoordinateSet.memPair
        (l.foldl (fun acc c => CoordinateSet.insert acc c.toOrientation g0) a) b g ↔
      CoordinateSet.memPair a b g ∨
        (g = g0 ∧ ∃ c ∈ l, c.toOrientation.bits = b) := by
  induction l with
  | nil => intro a b g; simp
  | cons c l ih =>
    intro a b g
    rw [List.foldl_cons, ih, memPair_insert]
    constructor
    · rintro ((h | ⟨rfl, rfl⟩) | ⟨rfl, c', hc', hb⟩)
      · exact Or.inl h
      · exact Or.inr ⟨rfl, c, List.mem_cons_self _ _, rfl⟩
      · exact Or.inr ⟨rfl, c', List.mem_cons_of_mem _ hc', hb⟩
    · rintro (h | ⟨rfl, c', hc', hb⟩)
      · exact Or.inl (Or.inl h)
      · rcases List.mem_cons.mp hc' with rfl | hc''
        · exact Or.inl (Or.inr ⟨hb.symm, rfl⟩)
        · exact Or.inr ⟨rfl, c', hc'', hb⟩

/-- Content of the derived index after `sync_coordinates`: every pair that was
already present, plus one pair for every expansion member of every rule. -/
theorem memPair_sync_aux (table : List (GridCoordinate × TileRequirements)) :
    ∀ (a : CoordinateSet) (b : Nat) (g : GridCoordinate),
    CoordinateSet.memPair
        (table.foldl
          (fun acc kv =>
            (expand kv.2).foldl
              (fun x cc => CoordinateSet.insert x cc.toOrientation kv.1) acc)
          a) b g ↔
      CoordinateSet.memPair a b g ∨
        ∃ kv ∈ table, kv.1 = g ∧ ∃ c ∈ expand kv.2, c.toOrientation.bits = b := by
  induction table with
  | nil => intro a b g; simp
  | cons kv table ih =>
    intro a b g
    rw [List.foldl_cons, ih, memPair_foldl_insert]
    constructor
    · rintro ((h | ⟨rfl, hex⟩) | ⟨kv', hkv', hg, hex⟩)
      · exact Or.inl h
      · exact Or.inr ⟨kv, List.mem_cons_self _ _, rfl, hex⟩
      · exact Or.inr ⟨kv', List.mem_cons_of_mem _ hkv', hg, hex⟩
    · rintro (h | ⟨kv', hkv', hg, hex⟩)
      · exact Or.inl (Or.inl h)
      · rcases List.mem_cons.mp hkv' with rfl | hk''
        · exact Or.inl (Or.inr ⟨hg.symm, hex⟩)
        · exact Or.inr ⟨kv', hk'', hg, hex⟩

theorem memPair_sync (cfg : TilemapSpriteConfig) (b : Nat) (g : GridCoordinate) :
    CoordinateSet.memPair cfg.sync_coordinates.coordinates b g ↔
      CoordinateSet.memPair cfg.coordinates b g ∨
        ∃ kv ∈ cfg.orientations, kv.1 = g ∧
          ∃ c ∈ expand kv.2, c.toOrientation.bits = b := by
  unfold TilemapSpriteConfig.sync_coordinates
  exact memPair_sync_aux cfg.orientations cfg.coordinates b g

/-- At an orientation key, membership of a pair produced by a rule is the same
as the rule matching that orientation. -/
theorem exists_expand_bits {v : TileRequirements} {o : Orientation} :
    (∃ c ∈ expand v, c.toOrientation.bits = o.bits) ↔ v.matchesOrientation o := by
  rw [← mem_map_toOrientation]
  constructor
  · rintro ⟨c, hc, hb⟩
    have := Orientation.bits_inj hb
    exact this ▸ List.mem_map_of_mem _ hc
  · intro h
    rcases List.mem_map.mp h with ⟨c, hc, hco⟩
    exact ⟨c, hc, by rw [hco]⟩

theorem mem_candidates_iff (c : CoordinateSet) (b : Nat) (g : GridCoordinate) :
    g ∈ CoordinateSet.candidates c b ↔ CoordinateSet.memPair c b g := by
  unfold CoordinateSet.candidates CoordinateSet.memPair
  cases h : CoordinateSet.getSet c b <;> simp

/-! ### Serialization of coordinate keys and the rule table -/

/-- Decimal digit character for a digit value (the rendering used by `Display`
for unsigned integers); values `≥ 10` never occur. -/
def digitChar (d : Nat) : Char :=
  match d with
  | 0 => '0'
  | 1 => '1'
  | 2 => '2'
  | 3 => '3'
  | 4 => '4'
  | 5 => '5'
  | 6 => '6'
  | 7 => '7'
  | 8 => '8'
  | 9 => '9'
  | _ => '*'

/-- The decimal rendering `format!("{}", n)` of a natural number, as a
character list, most significant digit first. -/
def natChars (n : Nat) : List Char :=
  if n = 0 then ['0'] else (Nat.digits 10 n).reverse.map digitChar

/-- Drop one optional leading plus sign (accepted by `usize::from_str`). -/
def stripPlusSign (s : List Char) : List Char :=
  match s with
  | '+' :: r => r
  | _ => s

/-- Rust `usize::from_str`: an optional leading `+` followed by a nonempty run of
decimal digits (integer overflow of `usize` is not modelled). -/
def natFromChars (s : List Char) : Option Nat :=
  let t := stripPlusSign s
  if t = [] then Option.none
  else if t.all Char.isDigit then
    some (t.foldl (fun a c => a * 10 + (c.toNat - 48)) 0)
  else Option.none

/-- Rust `str::split(":")` on character lists: splitting always yields at
least one (possibly empty) piece. -/
def splitColon : List Char → List (List Char)
  | [] => [[]]
  | c :: rest =>
      if c = ':' then [] :: splitColon rest
      else
        match splitColon rest with
        | h :: t => (c :: h) :: t
        | [] => [[c]]

/-- Outcome of `GridCoordinateVisitor::visit_str`: a parsed coordinate, a
serde `invalid_value` error, or a panic (an `unwrap()` of a missing piece). -/
inductive VisitOutcome where
  | ok (g : GridCoordinate)
  | invalid
  | panicked
deriving DecidableEq, Repr

/-- Rust `GridCoordinateVisitor::visit_str` from `src/tilemap/sprite_config.rs`:
split on `":"`, parse the first piece as `usize`; on success `unwrap()` the
second piece of the iterator (a panic when the string contains no `":"`) and
parse it; a piece that fails integer parsing is a serde error. -/
def visit_str (s : List Char) : VisitOutcome :=
  match splitColon s with
  | [] => VisitOutcome.panicked
  | first :: rest =>
    match natFromChars first with
    | some x =>
      match rest with
      | [] => VisitOutcome.panicked
      | second :: _ =>
        match natFromChars second with
        | some y => VisitOutcome.ok (GridCoordinate.new x y)
        | Option.none => VisitOutcome.invalid
    | Option.none => VisitOutcome.invalid

/-- Rust `impl Serialize for GridCoordinate`: the string `"x:y"`. -/
def GridCoordinate.serialize (g : GridCoordinate) : List Char :=
  natChars g.x ++ ':' :: natChars g.y

/-- Helper building a `dirs` array from its eight entries. -/
def mkDirs (d0 d1 d2 d3 d4 d5 d6 d7 : Option Bool) : Fin 8 → Option Bool :=
  fun i =>
    match i with
    | ⟨0, _⟩ => d0
    | ⟨1, _⟩ => d1
    | ⟨2, _⟩ => d2
    | ⟨3, _⟩ => d3
    | ⟨4, _⟩ => d4
    | ⟨5, _⟩ => d5
    | ⟨6, _⟩ => d6
    | ⟨7, _⟩ => d7

/-- Serde serialization of `TileRequirements`: its 8 tri-states in the fixed
direction order of the `dirs` array. -/
def TileRequirements.serialize (r : TileRequirements) : List (Option Bool) :=
  [r.dirs 0, r.dirs 1, r.dirs 2, r.dirs 3, r.dirs 4, r.dirs 5, r.dirs 6, r.dirs 7]

/-- Serde deserialization of `TileRequirements`: exactly 8 tri-states. -/
def TileRequirements.deserialize : List (Option Bool) → Option TileRequirements
  | [d0, d1, d2, d3, d4, d5, d6, d7] => some ⟨mkDirs d0 d1 d2 d3 d4 d5 d6 d7⟩
  | _ => Option.none

/-- Serialization of the persisted rule table: each entry keyed by the textual
`"x:y"` encoding of its sheet coordinate. -/
def encodeTable (t : List (GridCoordinate × TileRequirements)) :
    List (List Char × List (Option Bool)) :=
  t.map fun kv => (kv.1.serialize, kv.2.serialize)

/-- Deserialization of the persisted rule table; any malformed key or value
fails the whole load. -/
def decodeTable :
    List (List Char × List (Option Bool)) → Option (List (GridCoordinate × TileRequirements))
  | [] => some []
  | kv :: rest =>
    match visit_str kv.1, TileRequirements.deserialize kv.2, decodeTable rest with
    | VisitOutcome.ok g, some r, some t => some ((g, r) :: t)
    | _, _, _ => Option.none

theorem digitChar_spec (d : Nat) (hd : d < 10) :
    (digitChar d).isDigit = true ∧ (digitChar d).toNat - 48 = d ∧
      digitChar d ≠ '+' ∧ digitChar d ≠ ':' := by
  interval_cases d <;> exact ⟨by decide, by decide, by decide, by decide⟩

theorem natChars_spec (n : Nat) :
    ∀ c ∈ natChars n, c.isDigit = true ∧ c ≠ '+' ∧ c ≠ ':' := by
  intro c hc
  unfold natChars at hc
  split at hc
  · have hc0 : c = '0' := by simpa using hc
    rw [hc0]
    exact ⟨by decide, by decide, by decide⟩
  · rw [List.mem_map] at hc
    obtain ⟨d, hd, rfl⟩ := hc
    have hd10 : d < 10 := Nat.digits_lt_base (by norm_num) (List.mem_reverse.mp hd)
    obtain ⟨h1, -, h3, h4⟩ := digitChar_spec d hd10
    exact ⟨h1, h3, h4⟩

theorem natChars_ne_nil (n : Nat) : natChars n ≠ [] := by
  unfold natChars
  split
  · simp
  · simp only [ne_eq, List.map_eq_nil_iff, List.reverse_eq_nil_iff]
    exact Nat.digits_ne_nil_iff_ne_zero.mpr (by assumption)

theorem stripPlusSign_eq_self {s : List Char} (h : ∀ c ∈ s, c ≠ '+') :
    stripPlusSign s = s := by
  cases s with
  | nil => rfl
  | cons c r =>
    have hc : c ≠ '+' := h c (List.mem_cons_self _ _)
    unfold stripPlusSign
    split
    · next heq => exact absurd (List.cons.injEq .. ▸ heq : _ ∧ _).1 hc
    · rfl

theorem foldl_reverse_digits (ds : List Nat) :
    ∀ acc : Nat,
    ds.reverse.foldl (fun a d => a * 10 + d) acc = acc * 10 ^ ds.length + Nat.ofDigits 10 ds := by
  induction ds with
  | nil => intro acc; simp
  | cons d ds ih =>
    intro acc
    rw [List.reverse_cons, List.foldl_append, ih]
    simp only [List.foldl_cons, List.foldl_nil, Nat.ofDigits_cons, List.length_cons, pow_succ]
    ring

theorem foldl_map_digitChar (ds : List Nat) (hds : ∀ d ∈ ds, d < 10) :
    ∀ acc : Nat,
    (ds.map digitChar).foldl (fun a c => a * 10 + (c.toNat - 48)) acc =
      ds.foldl (fun a d => a * 10 + d) acc := by
  induction ds with
  | nil => intro acc; rfl
  | cons d ds ih =>
    intro acc
    rw [List.map_cons, List.foldl_cons, List.foldl_cons,
      (digitChar_spec d (hds d (List.mem_cons_self _ _))).2.1]
    exact ih (fun d hd => hds d (List.mem_cons_of_mem _ hd)) _

theorem natFromChars_natChars (n : Nat) : natFromChars (natChars n) = some n := by
  have hsp : stripPlusSign (natChars n) = natChars n :=
    stripPlusSign_eq_self (fun c hc => (natChars_spec n c hc).2.1)
  unfold natFromChars
  rw [hsp, if_neg (natChars_ne_nil n)]
  have hall : (natChars n).all Char.isDigit = true := by
    rw [List.all_eq_true]
    exact fun c hc => (natChars_spec n c hc).1
  rw [if_pos hall]
  by_cases h0 : n = 0
  · subst h0; rfl
  · rw [natChars, if_neg h0]
    have hlt : ∀ d ∈ (Nat.digits 10 n).reverse, d < 10 :=
      fun d hd => Nat.digits_lt_base (by norm_num) (List.mem_reverse.mp hd)
    rw [foldl_map_digitChar _ hlt, foldl_reverse_digits]
    simp [Nat.ofDigits_digits]

theorem splitColon_no_colon (a : List Char) (h : ∀ c ∈ a, c ≠ ':') :
    splitColon a = [a] := by
  induction a with
  | nil => rfl
  | cons c a ih =>
    have hc : c ≠ ':' := h c (List.mem_cons_self _ _)
    unfold splitColon
    rw [if_neg hc, ih (fun x hx => h x (List.mem_cons_of_mem _ hx))]

theorem splitColon_cons (c : Char) (rest : List Char) :
    splitColon (c :: rest) =
      if c = ':' then [] :: splitColon rest
      else
        match splitColon rest with
        | h :: t => (c :: h) :: t
        | [] => [[c]] := rfl

theorem splitColon_append (a b : List Char) (h : ∀ c ∈ a, c ≠ ':') :
    splitColon (a ++ ':' :: b) = a :: splitColon b := by
  induction a with
  | nil => simp [splitColon]
  | cons c a ih =>
    have hc : c ≠ ':' := h c (List.mem_cons_self _ _)
    show splitColon (c :: (a ++ ':' :: b)) = (c :: a) :: splitColon b
    rw [splitColon_cons, if_neg hc, ih (fun x hx => h x (List.mem_cons_of_mem _ hx))]

/-- The `"x:y"` encoding of a coordinate deserializes back to the identical
coordinate. -/
theorem visit_str_serialize (g : GridCoordinate) :
    visit_str g.serialize = VisitOutcome.ok g := by
  unfold visit_str GridCoordinate.serialize
  rw [splitColon_append _ _ (fun c hc => (natChars_spec g.x c hc).2.2),
    splitColon_no_colon _ (fun c hc => (natChars_spec g.y c hc).2.2)]
  simp only [natFromChars_natChars]
  rfl

theorem deserialize_serialize (r : TileRequirements) :
    TileRequirements.deserialize r.serialize = some r := by
  show some (⟨mkDirs (r.dirs 0) (r.dirs 1) (r.dirs 2) (r.dirs 3) (r.dirs 4) (r.dirs 5)
    (r.dirs 6) (r.dirs 7)⟩ : TileRequirements) = some r
  congr 1
  ext i : 2
  fin_cases i <;> rfl

theorem decodeTable_encodeTable (t : List (GridCoordinate × TileRequirements)) :
    decodeTable (encodeTable t) = some t := by
  induction t with
  | nil => rfl
  | cons kv rest ih =>
    show decodeTable ((kv.1.serialize, kv.2.serialize) :: encodeTable rest) = _
    unfold decodeTable
    rw [visit_str_serialize, deserialize_serialize, ih]

/-! ### Loading (`new_or_load`) -/

/-- Result of running `TilemapSpriteConfig::new_or_load`: either a config, or
a panic (the `unwrap()` of a failed `serde_json::from_reader`). -/
inductive LoadResult where
  | panicked
  | loaded (c : TilemapSpriteConfig)

/-- Rust `TilemapSpriteConfig::new_or_load(asset, grid_width, grid_height)` from
`src/tilemap/sprite_config.rs`. File-system and serde effects are abstracted:
`openResult` is `none` when `std::fs::File::open` fails, and otherwise carries
the result of `serde_json::from_reader` (`none` for any parse failure,
including a malformed coordinate key). The source unwraps the parse result
(panicking on a parse error), falls back to `new` only on an open error, and
always runs `sync_coordinates` before returning. -/
def TilemapSpriteConfig.new_or_load (openResult : Option (Option TilemapSpriteConfig))
    (grid_width grid_height : Nat) : LoadResult :=
  match openResult with
  | some parseResult =>
    match parseResult with
    | some cfg => LoadResult.loaded cfg.sync_coordinates
    | Option.none => LoadResult.panicked
  | Option.none =>
    LoadResult.loaded (TilemapSpriteConfig.new grid_width grid_height).sync_coordinates

/-! ### The occupancy grid (`Tilemap` from `src/tilemap/mod.rs`) -/

/-- Rust `WIDTH` from `src/tilemap/mod.rs`. -/
def WIDTH : Nat := 16

/-- Rust `HEIGHT` from `src/tilemap/mod.rs`. -/
def HEIGHT : Nat := 16

/-- Rust `enum Tile { Filled(Orientation), None }`. -/
inductive Tile where
  | filled (o : Orientation)
  | none
deriving DecidableEq, Repr

/-- Rust `struct TileData { sheet_pos: u32, grid_pos: u32 }`. -/
structure TileData where
  sheet_pos : Nat
  grid_pos : Nat
deriving DecidableEq, Repr

/-- Rust `offset_in_range(i, off_i, range)` with range `0..r`: does offsetting the
index keep it non-negative and inside the range? -/
def offset_in_range (i : Nat) (off_i : Int) (r : Nat) : Bool :=
  decide (0 ≤ (i : Int) + off_i) && decide ((i : Int) + off_i < (r : Int))

/-- Rust `offset(x, y, off_x, off_y)`: offset a coordinate, `None` out of bounds. -/
def offset (x y : Nat) (off_x off_y : Int) : Option (Nat × Nat) :=
  if offset_in_range x off_x WIDTH && offset_in_range y off_y HEIGHT then
    some (((x : Int) + off_x).toNat, ((y : Int) + off_y).toNat)
  else
    Option.none

/-- The `Tilemap` component: the `WIDTH×HEIGHT` cell array (indexed
`tiles[x][y]`, embedded as a function of which only indices below 16 are
relevant), the dirty flag, the instance count, and the instance buffer of the
GPU-side `TilemapData.tiles` array. The sprite config and texture handles are
rendering state outside the claims. -/
structure Tilemap where
  tiles : Nat → Nat → Tile
  dirty : Bool
  instance_count : Nat
  buffer : List TileData

/-- Write one cell of the tile array. -/
def setTile (g : Nat → Nat → Tile) (x y : Nat) (t : Tile) : Nat → Nat → Tile :=
  fun a b => if a = x ∧ b = y then t else g a b

/-- Rust `Tilemap::get_tile_offset`. -/
def Tilemap.get_tile_offset (t : Tilemap) (x y : Nat) (off_x off_y : Int) : Option Tile :=
  (offset x y off_x off_y).map fun p => t.tiles p.1 p.2

/-- Rust `Tilemap::tile_filled`: `false` only when the offset cell exists and is
`Tile::None`; in particular an out-of-bounds neighbour counts as filled. -/
def Tilemap.tile_filled (t : Tilemap) (x y : Nat) (off_x off_y : Int) : Bool :=
  match t.get_tile_offset x y off_x off_y with
  | some Tile.none => false
  | _ => true

/-- Is the cell at `(x, y)` occupied? -/
def Tilemap.occ (t : Tilemap) (x y : Nat) : Bool :=
  match t.tiles x y with
  | Tile.none => false
  | Tile.filled _ => true

/-- The orientation rebuilt by `Tilemap::update_orientation_offset`: start from
`NONE` and union in each direction whose neighbour passes `tile_filled`. -/
def Tilemap.computeOrientation (t : Tilemap) (x y : Nat) (off_x off_y : Int) : Orientation :=
  let o := Orientation.NONE
  let o := if t.tile_filled x y (off_x + 1) off_y then o.union Orientation.E else o
  let o := if t.tile_filled x y (off_x - 1) off_y then o.union Orientation.W else o
  let o := if t.tile_filled x y off_x (off_y + 1) then o.union Orientation.N else o
  let o := if t.tile_filled x y off_x (off_y - 1) then o.union Orientation.S else o
  let o := if t.tile_filled x y (off_x + 1) (off_y - 1) then o.union Orientation.SE else o
  let o := if t.tile_filled x y (off_x - 1) (off_y - 1) then o.union Orientation.SW else o
  let o := if t.tile_filled x y (off_x + 1) (off_y + 1) then o.union Orientation.NE else o
  let o := if t.tile_filled x y (off_x - 1) (off_y + 1) then o.union Orientation.NW else o
  o

/-- Rust `Tilemap::update_orientation_offset`: recompute the orientation of the
cell at the given offset and store it there when that cell exists and is
filled (`get_orientation_offset_mut` returns a reference only then). -/
def Tilemap.update_orientation_offset (t : Tilemap) (x y : Nat) (off_x off_y : Int) :
    Tilemap :=
  match offset x y off_x off_y with
  | some p =>
    match t.tiles p.1 p.2 with
    | Tile.filled _ =>
      { t with
        tiles := setTile t.tiles p.1 p.2
          (Tile.filled (t.computeOrientation x y off_x off_y)) }
    | Tile.none => t
  | Option.none => t

/-- The 9 offsets visited by the update loop of `Tilemap::toggle`
(`off_x` outer, `off_y` inner, each from -1 to 1). -/
def offsets9 : List (Int × Int) :=
  [(-1, -1), (-1, 0), (-1, 1), (0, -1), (0, 0), (0, 1), (1, -1), (1, 0), (1, 1)]

/-- The occupancy flip performed first by `Tilemap::toggle`:
`Filled(_) ↦ None` and `None ↦ Filled(Orientation::NONE)`. -/
def Tilemap.flipTile (t : Tilemap) (x y : Nat) : Tilemap :=
  { t with
    tiles := setTile t.tiles x y
      (match t.tiles x y with
       | Tile.filled _ => Tile.none
       | Tile.none => Tile.filled Orientation.NONE) }

/-- Rust `Tilemap::toggle(x, y)`: flip the occupancy of the cell, then recompute
the orientation of the cell and its neighbours, and mark the map dirty. -/
def Tilemap.toggle (t : Tilemap) (x y : Nat) : Tilemap :=
  { offsets9.foldl (fun acc p => acc.update_orientation_offset x y p.1 p.2)
      (t.flipTile x y) with
    dirty := true }

/-- Rust `rand::Rng::gen_range(lo..=hi)`, drawing from the abstract random stream
`f` at position `r`; returns the value and the next stream position. -/
def genRange (lo hi : Nat) (f : Nat → Nat) (r : Nat) : Nat × Nat :=
  (lo + f r % (hi + 1 - lo), r + 1)

/-- Rust `Tilemap::get_sheet_pos(o)`: the hardcoded pattern match on the four
cardinal containment bits (all diagonal bits are wildcards in every arm of the
source match), returning the packed sheet position `x + y * 16`; random draws
come from the stream `f` starting at position `r`, and the next position is
returned alongside. -/
def Tilemap.get_sheet_pos (o : Orientation) (f : Nat → Nat) (r : Nat) : Nat × Nat :=
  match o.n, o.e, o.s, o.w with
  | false, true, true, true =>
    let (x, r1) := genRange 1 4 f r
    (x + 0 * 16, r1)
  | true, false, true, true =>
    let (y, r1) := genRange 1 4 f r
    (5 + y * 16, r1)
  | true, true, false, true =>
    let (x, r1) := genRange 1 4 f r
    (x + 5 * 16, r1)
  | true, true, true, false =>
    let (y, r1) := genRange 1 4 f r
    (0 + y * 16, r1)
  | true, false, false, true => (5 + 5 * 16, r)
  | false, true, true, false => (0 + 0 * 16, r)
  | false, false, true, true => (5 + 0 * 16, r)
  | true, true, false, false => (0 + 5 * 16, r)
  | _, _, _, _ =>
    let (x, r1) := genRange 1 4 f r
    let (y, r2) := genRange 1 4 f r1
    (x + y * 16, r2)

/-- The cell visiting order of `Tilemap::apply_changes`: `x` outer from 0 to
15, `y` inner from 0 to 15. -/
def cellOrder : List (Nat × Nat) :=
  (List.range 16).flatMap fun x => (List.range 16).map fun y => (x, y)

/-- Rust `Tilemap::apply_changes`: when dirty, walk every cell in the fixed order,
write a `TileData { grid_pos: y * 16 + x, sheet_pos: get_sheet_pos(o) }` entry
for every `Filled(o)` cell into the next buffer slot, store the buffer, set
`instance_count` to the number of entries written, and clear the dirty flag. -/
def Tilemap.apply_changes (t : Tilemap) (f : Nat → Nat) : Tilemap :=
  if t.dirty then
    let res := cellOrder.foldl
      (fun (acc : List TileData × Nat × Nat) p =>
        match t.tiles p.1 p.2 with
        | Tile.filled o =>
          let (sp, r') := Tilemap.get_sheet_pos o f acc.2.2
          (acc.1.set acc.2.1 ⟨sp, p.2 * 16 + p.1⟩, acc.2.1 + 1, r')
        | Tile.none => acc)
      (List.replicate 256 ⟨0, 0⟩, 0, 0)
    { t with buffer := res.1, instance_count := res.2.1, dirty := false }
  else
    { t with dirty := false }

/-- The initial grid of `Tilemap::new`: every cell `Filled(Orientation::all())`. -/
def initialTilemap : Tilemap :=
  { tiles := fun _ _ => Tile.filled Orientation.all
    dirty := true
    instance_count := 0
    buffer := List.replicate 256 ⟨0, 0⟩ }

/-- Rust `Tilemap::new`, with the 10%-probability random toggles abstracted as the
list of cells the RNG chose to toggle, followed by the initial
`apply_changes`. -/
def Tilemap.new (togglesList : List (Nat × Nat)) (f : Nat → Nat) : Tilemap :=
  (togglesList.foldl (fun t p => t.toggle p.1 p.2) initialTilemap).apply_changes f

/-! ### Grid lemmas -/

theorem offset_eq_some_iff {x y : Nat} {ox oy : Int} {p : Nat × Nat} :
    offset x y ox oy = some p ↔
      0 ≤ (x : Int) + ox ∧ (x : Int) + ox < 16 ∧ 0 ≤ (y : Int) + oy ∧ (y : Int) + oy < 16 ∧
        (p.1 : Int) = (x : Int) + ox ∧ (p.2 : Int) = (y : Int) + oy := by
  unfold offset offset_in_range WIDTH HEIGHT
  split
  case isTrue hcond =>
    simp only [Bool.and_eq_true, decide_eq_true_eq] at hcond
    obtain ⟨⟨h1, h2⟩, h3, h4⟩ := hcond
    constructor
    · intro h
      rw [Option.some_inj] at h
      subst h
      refine ⟨by omega, by omega, by omega, by omega, by simp; omega, by simp; omega⟩
    · rintro ⟨-, -, -, -, h5, h6⟩
      rw [Option.some_inj]
      have hp : p = (p.1, p.2) := rfl
      rw [hp, Prod.mk.injEq]
      constructor <;> omega
  case isFalse hcond =>
    simp only [Bool.and_eq_true, decide_eq_true_eq] at hcond
    constructor
    · intro h
      exact absurd h (by simp)
    · rintro ⟨h1, h2, h3, h4, -, -⟩
      exact absurd ⟨⟨by omega, by omega⟩, by omega, by omega⟩ hcond

theorem offset_shift {x y : Nat} {ox oy : Int} {p : Nat × Nat}
    (h : offset x y ox oy = some p) (dx dy : Int) :
    offset x y (ox + dx) (oy + dy) = offset p.1 p.2 dx dy := by
  rw [offset_eq_some_iff] at h
  obtain ⟨h1, h2, h3, h4, h5, h6⟩ := h
  cases hr : offset p.1 p.2 dx dy with
  | none =>
    cases hl : offset x y (ox + dx) (oy + dy) with
    | none => rfl
    | some q =>
      rw [offset_eq_some_iff] at hl
      obtain ⟨g1, g2, g3, g4, g5, g6⟩ := hl
      have hq : offset p.1 p.2 dx dy = some q := by
        rw [offset_eq_some_iff]
        refine ⟨by omega, by omega, by omega, by omega, by omega, by omega⟩
      rw [hq] at hr
      cases hr
  | some q =>
    rw [offset_eq_some_iff] at hr ⊢
    obtain ⟨g1, g2, g3, g4, g5, g6⟩ := hr
    refine ⟨by omega, by omega, by omega, by omega, by omega, by omega⟩

theorem tile_filled_shift (t : Tilemap) {x y : Nat} {ox oy : Int} {p : Nat × Nat}
    (h : offset x y ox oy = some p) (dx dy : Int) :
    t.tile_filled x y (ox + dx) (oy + dy) = t.tile_filled p.1 p.2 dx dy := by
  unfold Tilemap.tile_filled Tilemap.get_tile_offset
  rw [offset_shift h dx dy]

theorem computeOrientation_shift (t : Tilemap) {x y : Nat} {ox oy : Int} {p : Nat × Nat}
    (h : offset x y ox oy = some p) :
    t.computeOrientation x y ox oy = t.computeOrientation p.1 p.2 0 0 := by
  unfold Tilemap.computeOrientation
  have e1 := tile_filled_shift t h 1 0
  have e2 := tile_filled_shift t h (-1) 0
  have e3 := tile_filled_shift t h 0 1
  have e4 := tile_filled_shift t h 0 (-1)
  have e5 := tile_filled_shift t h 1 (-1)
  have e6 := tile_filled_shift t h (-1) (-1)
  have e7 := tile_filled_shift t h 1 1
  have e8 := tile_filled_shift t h (-1) 1
  simp only [sub_eq_add_neg, add_zero, zero_add] at e1 e2 e3 e4 e5 e6 e7 e8 ⊢
  rw [e1, e2, e3, e4, e5, e6, e7, e8]

theorem tile_filled_congr (t t' : Tilemap) (x y : Nat) (ox oy : Int)
    (h : ∀ u v : Nat, offset x y ox oy = some (u, v) → t.occ u v = t'.occ u v) :
    t.tile_filled x y ox oy = t'.tile_filled x y ox oy := by
  unfold Tilemap.tile_filled Tilemap.get_tile_offset
  cases ho : offset x y ox oy with
  | none => rfl
  | some p =>
    have hocc := h p.1 p.2 (by rw [ho])
    unfold Tilemap.occ at hocc
    simp only [Option.map_some']
    cases h1 : t.tiles p.1 p.2 <;> cases h2 : t'.tiles p.1 p.2 <;>
      simp only [h1, h2] at hocc ⊢ <;> simp_all

theorem computeOrientation_congr (t t' : Tilemap) (x y : Nat) (ox oy : Int)
    (h : ∀ u v : Nat, t.occ u v = t'.occ u v) :
    t.computeOrientation x y ox oy = t'.computeOrientation x y ox oy := by
  unfold Tilemap.computeOrientation
  rw [tile_filled_congr t t' x y (ox + 1) oy (fun u v _ => h u v),
    tile_filled_congr t t' x y (ox - 1) oy (fun u v _ => h u v),
    tile_filled_congr t t' x y ox (oy + 1) (fun u v _ => h u v),
    tile_filled_congr t t' x y ox (oy - 1) (fun u v _ => h u v),
    tile_filled_congr t t' x y (ox + 1) (oy - 1) (fun u v _ => h u v),
    tile_filled_congr t t' x y (ox - 1) (oy - 1) (fun u v _ => h u v),
    tile_filled_congr t t' x y (ox + 1) (oy + 1) (fun u v _ => h u v),
    tile_filled_congr t t' x y (ox - 1) (oy + 1) (fun u v _ => h u v)]

theorem update_oo_tiles_ne (t : Tilemap) (x y : Nat) (ox oy : Int) (a b : Nat)
    (h : offset x y ox oy ≠ some (a, b)) :
    (t.update_orientation_offset x y ox oy).tiles a b = t.tiles a b := by
  unfold Tilemap.update_orientation_offset
  split
  case h_1 p hp =>
    split
    case h_1 o0 ho0 =>
      show setTile t.tiles p.1 p.2 _ a b = t.tiles a b
      unfold setTile
      rw [if_neg]
      rintro ⟨rfl, rfl⟩
      exact h (by rw [hp])
    case h_2 => rfl
  case h_2 => rfl

theorem update_oo_tiles_target (t : Tilemap) (x y : Nat) (ox oy : Int) (p : Nat × Nat)
    (h : offset x y ox oy = some p) :
    (t.update_orientation_offset x y ox oy).tiles p.1 p.2 =
      (if t.occ p.1 p.2 then Tile.filled (t.computeOrientation x y ox oy)
       else t.tiles p.1 p.2) := by
  unfold Tilemap.update_orientation_offset
  split
  case h_1 p' hp' =>
    have hpp : p' = p := by rw [h] at hp'; exact (Option.some_inj.mp hp').symm
    subst hpp
    split
    case h_1 o0 ho0 =>
      have hocc : t.occ p'.1 p'.2 = true := by unfold Tilemap.occ; rw [ho0]
      rw [if_pos hocc]
      show setTile t.tiles p'.1 p'.2 _ p'.1 p'.2 = _
      unfold setTile
      rw [if_pos ⟨rfl, rfl⟩]
    case h_2 ho0 =>
      have hocc : ¬ t.occ p'.1 p'.2 = true := by unfold Tilemap.occ; rw [ho0]; simp
      rw [if_neg hocc]
  case h_2 hp' =>
    rw [h] at hp'
    simp at hp'

theorem occ_update_oo (t : Tilemap) (x y : Nat) (ox oy : Int) (a b : Nat) :
    (t.update_orientation_offset x y ox oy).occ a b = t.occ a b := by
  by_cases hab : offset x y ox oy = some (a, b)
  · have htarget := update_oo_tiles_target t x y ox oy (a, b) hab
    unfold Tilemap.occ
    rw [htarget]
    by_cases hocc : t.occ a b = true
    · rw [if_pos hocc]
      unfold Tilemap.occ at hocc
      exact hocc.symm
    · rw [if_neg hocc]
  · unfold Tilemap.occ
    rw [update_oo_tiles_ne t x y ox oy a b hab]

theorem occ_foldl_update (l : List (Int × Int)) (x y : Nat) :
    ∀ (t : Tilemap) (a b : Nat),
    (l.foldl (fun acc q => acc.update_orientation_offset x y q.1 q.2) t).occ a b =
      t.occ a b := by
  induction l with
  | nil => intro t a b; rfl
  | cons q l ih =>
    intro t a b
    rw [List.foldl_cons, ih, occ_update_oo]

theorem foldl_update_tiles (x y : Nat) (t0 : Tilemap) (l : List (Int × Int)) :
    ∀ (t : Tilemap), (∀ u v, t.occ u v = t0.occ u v) → ∀ (a b : Nat),
    (l.foldl (fun acc q => acc.update_orientation_offset x y q.1 q.2) t).tiles a b =
      (if ∃ q ∈ l, offset x y q.1 q.2 = some (a, b) then
        (if t0.occ a b then Tile.filled (t0.computeOrientation a b 0 0) else t.tiles a b)
       else t.tiles a b) := by
  induction l with
  | nil =>
    intro t hocc a b
    simp
  | cons q l ih =>
    intro t hocc a b
    rw [List.foldl_cons]
    have hocc' : ∀ u v, (t.update_orientation_offset x y q.1 q.2).occ u v = t0.occ u v :=
      fun u v => (occ_update_oo t x y q.1 q.2 u v).trans (hocc u v)
    rw [ih (t.update_orientation_offset x y q.1 q.2) hocc' a b]
    by_cases hq : offset x y q.1 q.2 = some (a, b)
    · have htarget' : (t.update_orientation_offset x y q.1 q.2).tiles a b =
          (if t0.occ a b then Tile.filled (t0.computeOrientation a b 0 0)
           else t.tiles a b) := by
        rw [update_oo_tiles_target t x y q.1 q.2 (a, b) hq,
          computeOrientation_shift t hq,
          computeOrientation_congr t t0 a b 0 0 hocc,
          hocc a b]
      have hex2 : ∃ q' ∈ q :: l, offset x y q'.1 q'.2 = some (a, b) :=
        ⟨q, List.mem_cons_self _ _, hq⟩
      rw [if_pos hex2]
      by_cases hex : ∃ q' ∈ l, offset x y q'.1 q'.2 = some (a, b)
      · rw [if_pos hex]
        by_cases ho : t0.occ a b = true
        · rw [if_pos ho, if_pos ho]
        · rw [if_neg ho, if_neg ho, htarget', if_neg ho]
      · rw [if_neg hex, htarget']
    · have hiff : (∃ q' ∈ q :: l, offset x y q'.1 q'.2 = some (a, b)) ↔
          (∃ q' ∈ l, offset x y q'.1 q'.2 = some (a, b)) := by
        constructor
        · rintro ⟨q', hq', hh⟩
          rcases List.mem_cons.mp hq' with rfl | hq''
          · exact absurd hh hq
          · exact ⟨q', hq'', hh⟩
        · rintro ⟨q', hq', hh⟩
          exact ⟨q', List.mem_cons_of_mem _ hq', hh⟩
      have hne := update_oo_tiles_ne t x y q.1 q.2 a b hq
      by_cases hex : ∃ q' ∈ l, offset x y q'.1 q'.2 = some (a, b)
      · rw [if_pos hex, if_pos (hiff.mpr hex)]
        by_cases ho : t0.occ a b = true
        · rw [if_pos ho, if_pos ho]
        · rw [if_neg ho, if_neg ho, hne]
      · rw [if_neg hex, if_neg (fun hc => hex (hiff.mp hc)), hne]

@[simp] theorem Orientation.union_n (a b : Orientation) : (a.union b).n = (a.n || b.n) := rfl
@[simp] theorem Orientation.union_e (a b : Orientation) : (a.union b).e = (a.e || b.e) := rfl
@[simp] theorem Orientation.union_s (a b : Orientation) : (a.union b).s = (a.s || b.s) := rfl
@[simp] theorem Orientation.union_w (a b : Orientation) : (a.union b).w = (a.w || b.w) := rfl
@[simp] theorem Orientation.union_nw (a b : Orientation) : (a.union b).nw = (a.nw || b.nw) := rfl
@[simp] theorem Orientation.union_sw (a b : Orientation) : (a.union b).sw = (a.sw || b.sw) := rfl
@[simp] theorem Orientation.union_ne (a b : Orientation) : (a.union b).ne = (a.ne || b.ne) := rfl
@[simp] theorem Orientation.union_se (a b : Orientation) : (a.union b).se = (a.se || b.se) := rfl

@[simp] theorem Orientation.contains_N (a : Orientation) :
    a.contains Orientation.N = a.n := by
  simp [Orientation.contains, Orientation.N]
@[simp] theorem Orientation.contains_E (a : Orientation) :
    a.contains Orientation.E = a.e := by
  simp [Orientation.contains, Orientation.E]
@[simp] theorem Orientation.contains_S (a : Orientation) :
    a.contains Orientation.S = a.s := by
  simp [Orientation.contains, Orientation.S]
@[simp] theorem Orientation.contains_W (a : Orientation) :
    a.contains Orientation.W = a.w := by
  simp [Orientation.contains, Orientation.W]
@[simp] theorem Orientation.contains_NW (a : Orientation) :
    a.contains Orientation.NW = a.nw := by
  simp [Orientation.contains, Orientation.NW]
@[simp] theorem Orientation.contains_SW (a : Orientation) :
    a.contains Orientation.SW = a.sw := by
  simp [Orientation.contains, Orientation.SW]
@[simp] theorem Orientation.contains_NE (a : Orientation) :
    a.contains Orientation.NE = a.ne := by
  simp [Orientation.contains, Orientation.NE]
@[simp] theorem Orientation.contains_SE (a : Orientation) :
    a.contains Orientation.SE = a.se := by
  simp [Orientation.contains, Orientation.SE]

theorem computeOrientation_e (t : Tilemap) (x y : Nat) (ox oy : Int) :
    (t.computeOrientation x y ox oy).e = t.tile_filled x y (ox + 1) oy := by
  unfold Tilemap.computeOrientation
  cases hX : t.tile_filled x y (ox + 1) oy <;>
    simp [hX, apply_ite Orientation.e, Orientation.NONE, Orientation.E, Orientation.W,
      Orientation.N, Orientation.S, Orientation.SE, Orientation.SW, Orientation.NE,
      Orientation.NW]

theorem computeOrientation_w (t : Tilemap) (x y : Nat) (ox oy : Int) :
    (t.computeOrientation x y ox oy).w = t.tile_filled x y (ox - 1) oy := by
  unfold Tilemap.computeOrientation
  cases hX : t.tile_filled x y (ox - 1) oy <;>
    simp [hX, apply_ite Orientation.w, Orientation.NONE, Orientation.E, Orientation.W,
      Orientation.N, Orientation.S, Orientation.SE, Orientation.SW, Orientation.NE,
      Orientation.NW]

theorem computeOrientation_n (t : Tilemap) (x y : Nat) (ox oy : Int) :
    (t.computeOrientation x y ox oy).n = t.tile_filled x y ox (oy + 1) := by
  unfold Tilemap.computeOrientation
  cases hX : t.tile_filled x y ox (oy + 1) <;>
    simp [hX, apply_ite Orientation.n, Orientation.NONE, Orientation.E, Orientation.W,
      Orientation.N, Orientation.S, Orientation.SE, Orientation.SW, Orientation.NE,
      Orientation.NW]

theorem computeOrientation_s (t : Tilemap) (x y : Nat) (ox oy : Int) :
    (t.computeOrientation x y ox oy).s = t.tile_filled x y ox (oy - 1) := by
  unfold Tilemap.computeOrientation
  cases hX : t.tile_filled x y ox (oy - 1) <;>
    simp [hX, apply_ite Orientation.s, Orientation.NONE, Orientation.E, Orientation.W,
      Orientation.N, Orientation.S, Orientation.SE, Orientation.SW, Orientation.NE,
      Orientation.NW]

theorem computeOrientation_se (t : Tilemap) (x y : Nat) (ox oy : Int) :
    (t.computeOrientation x y ox oy).se = t.tile_filled x y (ox + 1) (oy - 1) := by
  unfold Tilemap.computeOrientation
  cases hX : t.tile_filled x y (ox + 1) (oy - 1) <;>
    simp [hX, apply_ite Orientation.se, Orientation.NONE, Orientation.E, Orientation.W,
      Orientation.N, Orientation.S, Orientation.SE, Orientation.SW, Orientation.NE,
      Orientation.NW]

theorem computeOrientation_sw (t : Tilemap) (x y : Nat) (ox oy : Int) :
    (t.computeOrientation x y ox oy).sw = t.tile_filled x y (ox - 1) (oy - 1) := by
  unfold Tilemap.computeOrientation
  cases hX : t.tile_filled x y (ox - 1) (oy - 1) <;>
    simp [hX, apply_ite Orientation.sw, Orientation.NONE, Orientation.E, Orientation.W,
      Orientation.N, Orientation.S, Orientation.SE, Orientation.SW, Orientation.NE,
      Orientation.NW]

theorem computeOrientation_ne (t : Tilemap) (x y : Nat) (ox oy : Int) :
    (t.computeOrientation x y ox oy).ne = t.tile_filled x y (ox + 1) (oy + 1) := by
  unfold Tilemap.computeOrientation
  cases hX : t.tile_filled x y (ox + 1) (oy + 1) <;>
    simp [hX, apply_ite Orientation.ne, Orientation.NONE, Orientation.E, Orientation.W,
      Orientation.N, Orientation.S, Orientation.SE, Orientation.SW, Orientation.NE,
      Orientation.NW]

theorem computeOrientation_nw (t : Tilemap) (x y : Nat) (ox oy : Int) :
    (t.computeOrientation x y ox oy).nw = t.tile_filled x y (ox - 1) (oy + 1) := by
  unfold Tilemap.computeOrientation
  cases hX : t.tile_filled x y (ox - 1) (oy + 1) <;>
    simp [hX, apply_ite Orientation.nw, Orientation.NONE, Orientation.E, Orientation.W,
      Orientation.N, Orientation.S, Orientation.SE, Orientation.SW, Orientation.NE,
      Orientation.NW]

theorem occ_false_iff (t : Tilemap) (a b : Nat) :
    t.occ a b = false ↔ t.tiles a b = Tile.none := by
  unfold Tilemap.occ
  cases t.tiles a b <;> simp

theorem occ_true_iff (t : Tilemap) (a b : Nat) :
    t.occ a b = true ↔ ∃ o, t.tiles a b = Tile.filled o := by
  unfold Tilemap.occ
  cases t.tiles a b <;> simp

theorem flipTile_tiles_ne (t : Tilemap) (x y a b : Nat) (h : ¬(a = x ∧ b = y)) :
    (t.flipTile x y).tiles a b = t.tiles a b := by
  unfold Tilemap.flipTile setTile
  exact if_neg h

theorem flipTile_tiles_self (t : Tilemap) (x y : Nat) :
    (t.flipTile x y).tiles x y =
      (match t.tiles x y with
       | Tile.filled _ => Tile.none
       | Tile.none => Tile.filled Orientation.NONE) := by
  unfold Tilemap.flipTile setTile
  exact if_pos ⟨rfl, rfl⟩

theorem occ_flipTile (t : Tilemap) (x y a b : Nat) :
    (t.flipTile x y).occ a b =
      (if a = x ∧ b = y then !t.occ a b else t.occ a b) := by
  by_cases h : a = x ∧ b = y
  · obtain ⟨rfl, rfl⟩ := h
    rw [if_pos ⟨rfl, rfl⟩]
    unfold Tilemap.occ
    rw [flipTile_tiles_self]
    cases t.tiles a b <;> rfl
  · rw [if_neg h]
    unfold Tilemap.occ
    rw [flipTile_tiles_ne t x y a b h]

theorem toggle_tiles (t : Tilemap) (x y a b : Nat) :
    (t.toggle x y).tiles a b =
      (if ∃ q ∈ offsets9, offset x y q.1 q.2 = some (a, b) then
        (if (t.flipTile x y).occ a b then
          Tile.filled ((t.flipTile x y).computeOrientation a b 0 0)
         else (t.flipTile x y).tiles a b)
       else (t.flipTile x y).tiles a b) := by
  show (offsets9.foldl (fun acc q => acc.update_orientation_offset x y q.1 q.2)
      (t.flipTile x y)).tiles a b = _
  exact foldl_update_tiles x y (t.flipTile x y) offsets9 (t.flipTile x y)
    (fun _ _ => rfl) a b

theorem occ_toggle (t : Tilemap) (x y a b : Nat) :
    (t.toggle x y).occ a b = (t.flipTile x y).occ a b := by
  show (offsets9.foldl (fun acc q => acc.update_orientation_offset x y q.1 q.2)
      (t.flipTile x y)).occ a b = _
  exact occ_foldl_update offsets9 x y (t.flipTile x y) a b

theorem offset_self (x y : Nat) (hx : x < 16) (hy : y < 16) :
    offset x y 0 0 = some (x, y) := by
  rw [offset_eq_some_iff]
  refine ⟨by omega, by omega, by omega, by omega, by omega, by omega⟩

theorem self_hit (x y : Nat) (hx : x < 16) (hy : y < 16) :
    ∃ q ∈ offsets9, offset x y q.1 q.2 = some (x, y) :=
  ⟨(0, 0), by simp [offsets9], offset_self x y hx hy⟩

theorem hit_bounds {x y a b : Nat}
    (h : ∃ q ∈ offsets9, offset x y q.1 q.2 = some (a, b)) : a < 16 ∧ b < 16 := by
  obtain ⟨q, -, hq⟩ := h
  rw [offset_eq_some_iff] at hq
  omega

theorem not_hit_far {x y a b : Nat} (ha : a < 16) (hb : b < 16)
    (hne : ¬(a = x ∧ b = y))
    (h : ¬ ∃ q ∈ offsets9, offset x y q.1 q.2 = some (a, b)) :
    ∀ dx dy : Int, -1 ≤ dx → dx ≤ 1 → -1 ≤ dy → dy ≤ 1 → ∀ u v : Nat,
      offset a b dx dy = some (u, v) → ¬(u = x ∧ v = y) := by
  intro dx dy hdx1 hdx2 hdy1 hdy2 u v huv hv
  obtain ⟨rfl, rfl⟩ := hv
  apply h
  rw [offset_eq_some_iff] at huv
  obtain ⟨g1, g2, g3, g4, g5, g6⟩ := huv
  refine ⟨(-dx, -dy), ?_, ?_⟩
  · have hdx : dx = -1 ∨ dx = 0 ∨ dx = 1 := by omega
    have hdy : dy = -1 ∨ dy = 0 ∨ dy = 1 := by omega
    rcases hdx with rfl | rfl | rfl <;> rcases hdy with rfl | rfl | rfl <;>
      simp [offsets9]
  · rw [offset_eq_some_iff]
    refine ⟨by omega, by omega, by omega, by omega, by omega, by omega⟩

theorem computeOrientation_congr_except (t t' : Tilemap) (x y a b : Nat)
    (hocc : ∀ u v, ¬(u = x ∧ v = y) → t.occ u v = t'.occ u v)
    (hfar : ∀ dx dy : Int, -1 ≤ dx → dx ≤ 1 → -1 ≤ dy → dy ≤ 1 → ∀ u v : Nat,
      offset a b dx dy = some (u, v) → ¬(u = x ∧ v = y)) :
    t.computeOrientation a b 0 0 = t'.computeOrientation a b 0 0 := by
  unfold Tilemap.computeOrientation
  rw [tile_filled_congr t t' a b (0 + 1) 0
      (fun u v hu => hocc u v (hfar (0 + 1) 0 (by norm_num) (by norm_num) (by norm_num)
        (by norm_num) u v hu)),
    tile_filled_congr t t' a b (0 - 1) 0
      (fun u v hu => hocc u v (hfar (0 - 1) 0 (by norm_num) (by norm_num) (by norm_num)
        (by norm_num) u v hu)),
    tile_filled_congr t t' a b 0 (0 + 1)
      (fun u v hu => hocc u v (hfar 0 (0 + 1) (by norm_num) (by norm_num) (by norm_num)
        (by norm_num) u v hu)),
    tile_filled_congr t t' a b 0 (0 - 1)
      (fun u v hu => hocc u v (hfar 0 (0 - 1) (by norm_num) (by norm_num) (by norm_num)
        (by norm_num) u v hu)),
    tile_filled_congr t t' a b (0 + 1) (0 - 1)
      (fun u v hu => hocc u v (hfar (0 + 1) (0 - 1) (by norm_num) (by norm_num) (by norm_num)
        (by norm_num) u v hu)),
    tile_filled_congr t t' a b (0 - 1) (0 - 1)
      (fun u v hu => hocc u v (hfar (0 - 1) (0 - 1) (by norm_num) (by norm_num) (by norm_num)
        (by norm_num) u v hu)),
    tile_filled_congr t t' a b (0 + 1) (0 + 1)
      (fun u v hu => hocc u v (hfar (0 + 1) (0 + 1) (by norm_num) (by norm_num) (by norm_num)
        (by norm_num) u v hu)),
    tile_filled_congr t t' a b (0 - 1) (0 + 1)
      (fun u v hu => hocc u v (hfar (0 - 1) (0 + 1) (by norm_num) (by norm_num) (by norm_num)
        (by norm_num) u v hu))]

/-- A grid is coherent when every in-bounds filled cell stores exactly the
orientation that `update_orientation_offset` would derive for it from the
current occupancy. -/
def Tilemap.coherent (t : Tilemap) : Prop :=
  ∀ a, a < 16 → ∀ b, b < 16 → ∀ o, t.tiles a b = Tile.filled o →
    o = t.computeOrientation a b 0 0

instance (t : Tilemap) : Decidable t.coherent := by
  unfold Tilemap.coherent
  infer_instance

theorem initial_tile_filled (x y : Nat) (ox oy : Int) :
    initialTilemap.tile_filled x y ox oy = true := by
  unfold Tilemap.tile_filled Tilemap.get_tile_offset
  cases h : offset x y ox oy with
  | none => rfl
  | some p => rfl

theorem initial_coherent : initialTilemap.coherent := by
  intro a _ b _ o hab
  have ho : o = Orientation.all := by
    have : Tile.filled Orientation.all = Tile.filled o := hab
    cases this
    rfl
  subst ho
  unfold Tilemap.computeOrientation
  simp only [initial_tile_filled, if_pos]
  rfl

theorem coherent_toggle {t : Tilemap} (hc : t.coherent) (x y : Nat)
    (hx : x < 16) (hy : y < 16) : (t.toggle x y).coherent := by
  intro a ha b hb o hab
  have hocc_toggle : ∀ u v, (t.toggle x y).occ u v = (t.flipTile x y).occ u v :=
    fun u v => occ_toggle t x y u v
  have hcompute : (t.toggle x y).computeOrientation a b 0 0 =
      (t.flipTile x y).computeOrientation a b 0 0 :=
    computeOrientation_congr _ _ a b 0 0 hocc_toggle
  rw [toggle_tiles] at hab
  by_cases hhit : ∃ q ∈ offsets9, offset x y q.1 q.2 = some (a, b)
  · rw [if_pos hhit] at hab
    by_cases ho : (t.flipTile x y).occ a b = true
    · rw [if_pos ho] at hab
      cases hab
      rw [hcompute]
    · rw [if_neg ho] at hab
      have hnone : (t.flipTile x y).tiles a b = Tile.none :=
        (occ_false_iff _ a b).mp (Bool.not_eq_true _ ▸ ho : _)
      rw [hnone] at hab
      cases hab
  · rw [if_neg hhit] at hab
    have hne : ¬(a = x ∧ b = y) := by
      rintro ⟨rfl, rfl⟩
      exact hhit (self_hit a b ha hb)
    rw [flipTile_tiles_ne t x y a b hne] at hab
    have ho := hc a ha b hb o hab
    rw [ho, hcompute]
    apply computeOrientation_congr_except t (t.flipTile x y) x y a b
    · intro u v huv
      rw [occ_flipTile, if_neg huv]
    · exact not_hit_far ha hb hne hhit

theorem coherent_foldl_toggle (l : List (Nat × Nat)) :
    ∀ t : Tilemap, t.coherent → (∀ p ∈ l, p.1 < 16 ∧ p.2 < 16) →
    (l.foldl (fun acc p => acc.toggle p.1 p.2) t).coherent := by
  induction l with
  | nil => intro t hc _; exact hc
  | cons p l ih =>
    intro t hc hl
    rw [List.foldl_cons]
    have hp := hl p (List.mem_cons_self _ _)
    exact ih (t.toggle p.1 p.2) (coherent_toggle hc p.1 p.2 hp.1 hp.2)
      (fun q hq => hl q (List.mem_cons_of_mem _ hq))

theorem apply_changes_tiles (t : Tilemap) (f : Nat → Nat) :
    (t.apply_changes f).tiles = t.tiles := by
  unfold Tilemap.apply_changes
  split <;> rfl

theorem occ_apply_changes (t : Tilemap) (f : Nat → Nat) (a b : Nat) :
    (t.apply_changes f).occ a b = t.occ a b := by
  unfold Tilemap.occ
  rw [apply_changes_tiles]

theorem coherent_apply_changes {t : Tilemap} (hc : t.coherent) (f : Nat → Nat) :
    (t.apply_changes f).coherent := by
  intro a ha b hb o hab
  rw [apply_changes_tiles] at hab
  rw [hc a ha b hb o hab]
  apply computeOrientation_congr
  intro u v
  rw [occ_apply_changes]

/-- Core of the toggle-involution: on a coherent grid, toggling the same
in-bounds cell twice restores every cell of the tile array. -/
theorem toggle_toggle_tiles {t : Tilemap} (hc : t.coherent) {x y : Nat}
    (hx : x < 16) (hy : y < 16) (a b : Nat) :
    ((t.toggle x y).toggle x y).tiles a b = t.tiles a b := by
  have hoccf : ∀ u v, ((t.toggle x y).flipTile x y).occ u v = t.occ u v := by
    intro u v
    rw [occ_flipTile]
    by_cases huv : u = x ∧ v = y
    · obtain ⟨rfl, rfl⟩ := huv
      rw [if_pos ⟨rfl, rfl⟩, occ_toggle, occ_flipTile, if_pos ⟨rfl, rfl⟩, Bool.not_not]
    · rw [if_neg huv, occ_toggle, occ_flipTile, if_neg huv]
  rw [toggle_tiles]
  by_cases hhit : ∃ q ∈ offsets9, offset x y q.1 q.2 = some (a, b)
  · rw [if_pos hhit]
    obtain ⟨ha, hb⟩ := hit_bounds hhit
    rw [hoccf a b]
    by_cases ho : t.occ a b = true
    · rw [if_pos ho]
      obtain ⟨o, hab⟩ := (occ_true_iff t a b).mp ho
      rw [hab, hc a ha b hb o hab]
      have := computeOrientation_congr ((t.toggle x y).flipTile x y) t a b 0 0 hoccf
      rw [this]
    · rw [if_neg ho]
      have h1 : t.tiles a b = Tile.none :=
        (occ_false_iff t a b).mp (by revert ho; cases t.occ a b <;> simp)
      have h2 : ((t.toggle x y).flipTile x y).tiles a b = Tile.none := by
        apply (occ_false_iff _ a b).mp
        rw [hoccf a b]
        revert ho
        cases t.occ a b <;> simp
      rw [h1, h2]
  · rw [if_neg hhit]
    have hne : ¬(a = x ∧ b = y) := by
      rintro ⟨rfl, rfl⟩
      exact hhit (self_hit _ _ hx hy)
    rw [flipTile_tiles_ne _ x y a b hne, toggle_tiles, if_neg hhit,
      flipTile_tiles_ne t x y a b hne]

/-! ### apply_changes bookkeeping -/

/-- The filled cells of a grid in the visiting order of `apply_changes`. -/
def filledCells (t : Tilemap) : List (Nat × Nat) :=
  cellOrder.filter fun p => t.occ p.1 p.2

/-- The loop body of `apply_changes` as a standalone step function. -/
def applyStep (t : Tilemap) (f : Nat → Nat) (acc : List TileData × Nat × Nat)
    (p : Nat × Nat) : List TileData × Nat × Nat :=
  match t.tiles p.1 p.2 with
  | Tile.filled o =>
    let (sp, r') := Tilemap.get_sheet_pos o f acc.2.2
    (acc.1.set acc.2.1 ⟨sp, p.2 * 16 + p.1⟩, acc.2.1 + 1, r')
  | Tile.none => acc

theorem apply_changes_eq_fold (t : Tilemap) (f : Nat → Nat) (hd : t.dirty = true) :
    t.apply_changes f =
      { t with
        buffer := (cellOrder.foldl (applyStep t f) (List.replicate 256 ⟨0, 0⟩, 0, 0)).1
        instance_count := (cellOrder.foldl (applyStep t f) (List.replicate 256 ⟨0, 0⟩, 0, 0)).2.1
        dirty := false } := by
  unfold Tilemap.apply_changes applyStep
  rw [if_pos hd]

/-- The entries the loop of `apply_changes` writes for a cell list, together
with the final random-stream position. -/
def entriesFor (t : Tilemap) (f : Nat → Nat) : List (Nat × Nat) → Nat → List TileData × Nat
  | [], r => ([], r)
  | p :: l, r =>
    match t.tiles p.1 p.2 with
    | Tile.filled o =>
      let (sp, r') := Tilemap.get_sheet_pos o f r
      let rest := entriesFor t f l r'
      (⟨sp, p.2 * 16 + p.1⟩ :: rest.1, rest.2)
    | Tile.none => entriesFor t f l r

/-- Sequential writes of a list of entries into consecutive buffer slots. -/
def writeSeq (buf : List TileData) (i : Nat) : List TileData → List TileData
  | [] => buf
  | d :: ds => writeSeq (buf.set i d) (i + 1) ds

theorem apply_fold_eq (t : Tilemap) (f : Nat → Nat) (l : List (Nat × Nat)) :
    ∀ (buf : List TileData) (i r : Nat),
    l.foldl (applyStep t f) (buf, i, r) =
      (writeSeq buf i (entriesFor t f l r).1,
        i + (entriesFor t f l r).1.length, (entriesFor t f l r).2) := by
  induction l with
  | nil => intro buf i r; rfl
  | cons p l ih =>
    intro buf i r
    rw [List.foldl_cons]
    cases hp : t.tiles p.1 p.2 with
    | filled o =>
      have hstep : applyStep t f (buf, i, r) p =
          (buf.set i ⟨(Tilemap.get_sheet_pos o f r).1, p.2 * 16 + p.1⟩, i + 1,
            (Tilemap.get_sheet_pos o f r).2) := by
        unfold applyStep
        rw [hp]
      have hcons : entriesFor t f (p :: l) r =
          (match t.tiles p.1 p.2 with
           | Tile.filled o =>
             (⟨(Tilemap.get_sheet_pos o f r).1, p.2 * 16 + p.1⟩ ::
                 (entriesFor t f l (Tilemap.get_sheet_pos o f r).2).1,
               (entriesFor t f l (Tilemap.get_sheet_pos o f r).2).2)
           | Tile.none => entriesFor t f l r) := rfl
      have hentries : entriesFor t f (p :: l) r =
          (⟨(Tilemap.get_sheet_pos o f r).1, p.2 * 16 + p.1⟩ ::
              (entriesFor t f l (Tilemap.get_sheet_pos o f r).2).1,
            (entriesFor t f l (Tilemap.get_sheet_pos o f r).2).2) := by
        rw [hcons, hp]
      rw [hstep, ih, hentries]
      simp only [List.length_cons]
      have harith : i + ((entriesFor t f l (Tilemap.get_sheet_pos o f r).2).1.length + 1) =
          i + 1 + (entriesFor t f l (Tilemap.get_sheet_pos o f r).2).1.length := by omega
      rw [harith]
      rfl
    | none =>
      have hstep : applyStep t f (buf, i, r) p = (buf, i, r) := by
        unfold applyStep
        rw [hp]
      have hcons : entriesFor t f (p :: l) r =
          (match t.tiles p.1 p.2 with
           | Tile.filled o =>
             (⟨(Tilemap.get_sheet_pos o f r).1, p.2 * 16 + p.1⟩ ::
                 (entriesFor t f l (Tilemap.get_sheet_pos o f r).2).1,
               (entriesFor t f l (Tilemap.get_sheet_pos o f r).2).2)
           | Tile.none => entriesFor t f l r) := rfl
      have hentries : entriesFor t f (p :: l) r = entriesFor t f l r := by
        rw [hcons, hp]
      rw [hstep, ih, hentries]

theorem entriesFor_length (t : Tilemap) (f : Nat → Nat) (l : List (Nat × Nat)) :
    ∀ r, (entriesFor t f l r).1.length = (l.filter fun p => t.occ p.1 p.2).length := by
  induction l with
  | nil => intro r; rfl
  | cons p l ih =>
    intro r
    unfold entriesFor
    rw [List.filter_cons]
    cases hp : t.tiles p.1 p.2 with
    | filled o =>
      have ho : t.occ p.1 p.2 = true := by unfold Tilemap.occ; rw [hp]
      simp only [ho, decide_eq_true_eq, List.length_cons, if_pos]
      rw [ih]
    | none =>
      have ho : t.occ p.1 p.2 = false := by unfold Tilemap.occ; rw [hp]
      simp only [ho]
      rw [ih]
      simp

theorem entriesFor_grid_pos (t : Tilemap) (f : Nat → Nat) (l : List (Nat × Nat)) :
    ∀ r, (entriesFor t f l r).1.map TileData.grid_pos =
      (l.filter fun p => t.occ p.1 p.2).map (fun p => p.2 * 16 + p.1) := by
  induction l with
  | nil => intro r; rfl
  | cons p l ih =>
    intro r
    unfold entriesFor
    rw [List.filter_cons]
    cases hp : t.tiles p.1 p.2 with
    | filled o =>
      have ho : t.occ p.1 p.2 = true := by unfold Tilemap.occ; rw [hp]
      simp only [ho, decide_eq_true_eq, if_pos, List.map_cons]
      rw [ih]
    | none =>
      have ho : t.occ p.1 p.2 = false := by unfold Tilemap.occ; rw [hp]
      simp only [ho]
      rw [ih]
      simp

theorem writeSeq_spec (ds : List TileData) :
    ∀ (buf : List TileData) (i : Nat), i + ds.length ≤ buf.length →
    writeSeq buf i ds = buf.take i ++ ds ++ buf.drop (i + ds.length) := by
  induction ds with
  | nil =>
    intro buf i _
    simp [writeSeq]
  | cons d ds ih =>
    intro buf i hlen
    have hi : i < buf.length := by simp at hlen; omega
    have hlt : (buf.take i).length = i := by
      rw [List.length_take]
      omega
    show writeSeq (buf.set i d) (i + 1) ds = _
    rw [ih (buf.set i d) (i + 1) (by simp at hlen ⊢; omega)]
    rw [List.set_eq_take_cons_drop d hi]
    rw [List.take_append_eq_append_take, List.drop_append_eq_append_drop]
    have f1 : List.take (i + 1) (buf.take i) = buf.take i := by
      rw [List.take_take]
      congr 1
      omega
    have f2 : List.take (i + 1 - (buf.take i).length) (d :: buf.drop (i + 1)) = [d] := by
      rw [hlt]
      have e1 : i + 1 - i = 1 := by omega
      rw [e1]
      rfl
    have f3 : List.drop (i + 1 + ds.length) (buf.take i) = [] := by
      apply List.drop_eq_nil_of_le
      rw [hlt]
      omega
    have f4 : List.drop (i + 1 + ds.length - (buf.take i).length) (d :: buf.drop (i + 1)) =
        List.drop (i + (d :: ds).length) buf := by
      rw [hlt]
      have e2 : i + 1 + ds.length - i = ds.length + 1 := by omega
      rw [e2, List.drop_succ_cons, List.drop_drop]
      congr 1
      simp
      omega
    rw [f1, f2, f3, f4]
    simp [List.append_assoc]

set_option maxRecDepth 4000

theorem cellOrder_length : cellOrder.length = 256 := by decide

theorem apply_changes_count (t : Tilemap) (f : Nat → Nat) (hd : t.dirty = true) :
    (t.apply_changes f).instance_count = (filledCells t).length := by
  rw [apply_changes_eq_fold t f hd]
  show (cellOrder.foldl (applyStep t f) (List.replicate 256 ⟨0, 0⟩, 0, 0)).2.1 = _
  rw [apply_fold_eq t f cellOrder (List.replicate 256 ⟨0, 0⟩) 0 0]
  show 0 + (entriesFor t f cellOrder 0).1.length = _
  rw [entriesFor_length t f cellOrder 0]
  unfold filledCells
  omega

theorem filledCells_length_le (t : Tilemap) : (filledCells t).length ≤ 256 := by
  have h := List.length_filter_le (fun p => t.occ p.1 p.2) cellOrder
  unfold filledCells
  rw [cellOrder_length] at h
  exact h

theorem apply_changes_buffer (t : Tilemap) (f : Nat → Nat) (hd : t.dirty = true) :
    ((t.apply_changes f).buffer.take (filledCells t).length).map TileData.grid_pos =
      (filledCells t).map fun p => p.2 * 16 + p.1 := by
  rw [apply_changes_eq_fold t f hd]
  show ((cellOrder.foldl (applyStep t f) (List.replicate 256 ⟨0, 0⟩, 0, 0)).1.take
      (filledCells t).length).map TileData.grid_pos = _
  rw [apply_fold_eq t f cellOrder (List.replicate 256 ⟨0, 0⟩) 0 0]
  show ((writeSeq (List.replicate 256 ⟨0, 0⟩) 0 (entriesFor t f cellOrder 0).1).take
      (filledCells t).length).map TileData.grid_pos = _
  have hcount : (entriesFor t f cellOrder 0).1.length = (filledCells t).length := by
    rw [entriesFor_length t f cellOrder 0]
    rfl
  rw [writeSeq_spec (entriesFor t f cellOrder 0).1 (List.replicate 256 ⟨0, 0⟩) 0
    (by rw [hcount, List.length_replicate]; simpa using filledCells_length_le t)]
  simp only [List.take_zero, List.nil_append, Nat.zero_add]
  rw [← hcount, List.take_left]
  rw [entriesFor_grid_pos t f cellOrder 0]
  rfl

/-- The direction ↔ unit-offset table of `Orientation::orient` (and of the
neighbour tests in `update_orientation_offset`). -/
def dirOffsetList : List (Orientation × Int × Int) :=
  [(Orientation.E, 1, 0), (Orientation.W, -1, 0), (Orientation.N, 0, 1),
    (Orientation.S, 0, -1), (Orientation.NE, 1, 1), (Orientation.NW, -1, 1),
    (Orientation.SE, 1, -1), (Orientation.SW, -1, -1)]

theorem dirOffsetList_orient :
    ∀ ddd ∈ dirOffsetList, Orientation.orient ddd.2.1 ddd.2.2 = some ddd.1 := by
  decide

/-- On a coherent grid, the stored orientation of every filled cell agrees,
direction by direction, with the `tile_filled` neighbour tests. -/
theorem coherent_dir_spec {t : Tilemap} (hc : t.coherent) (a b : Nat)
    (ha : a < 16) (hb : b < 16) (o : Orientation) (hab : t.tiles a b = Tile.filled o) :
    ∀ ddd ∈ dirOffsetList, o.contains ddd.1 = t.tile_filled a b ddd.2.1 ddd.2.2 := by
  intro ddd hddd
  rw [hc a ha b hb o hab]
  have h1 : (0 : Int) + 1 = 1 := by norm_num
  have h2 : (0 : Int) - 1 = -1 := by norm_num
  fin_cases hddd
  · rw [Orientation.contains_E, computeOrientation_e, h1]
  · rw [Orientation.contains_W, computeOrientation_w, h2]
  · rw [Orientation.contains_N, computeOrientation_n, h1]
  · rw [Orientation.contains_S, computeOrientation_s, h2]
  · rw [Orientation.contains_NE, computeOrientation_ne, h1]
  · rw [Orientation.contains_NW, computeOrientation_nw, h2, h1]
  · rw [Orientation.contains_SE, computeOrientation_se, h1, h2]
  · rw [Orientation.contains_SW, computeOrientation_sw, h2]

/-! ### Concrete instances used by witnesses and counterexamples -/

/-- A rule with all 8 directions wildcard. -/
def wildcardRule : TileRequirements := ⟨fun _ => Option.none⟩

/-- A rule requiring every neighbour absent. -/
def allFalseRule : TileRequirements := ⟨fun _ => some false⟩

/-- A config with one authored rule and an empty derived index. -/
def demoCfg : TilemapSpriteConfig :=
  { orientations := [(GridCoordinate.new 0 0, wildcardRule)]
    coordinates := []
    grid_width := 4
    grid_height := 4
    tile_width := 8
    tile_height := 8 }

/-- A config whose single rule requires every neighbour absent. -/
def cfgA : TilemapSpriteConfig :=
  { orientations := [(GridCoordinate.new 1 1, allFalseRule)]
    coordinates := []
    grid_width := 4
    grid_height := 4
    tile_width := 8
    tile_height := 8 }

/-- A config whose derived index holds one candidate under the empty
orientation. -/
def c8Cfg : TilemapSpriteConfig :=
  { orientations := []
    coordinates := [(0, [GridCoordinate.new 2 3])]
    grid_width := 4
    grid_height := 4
    tile_width := 8
    tile_height := 8 }

/-- A grid holding a single filled cell whose stored orientation is stale
(empty even though off-grid neighbours count as filled). -/
def badGrid : Tilemap :=
  { tiles := fun a b => if a = 0 ∧ b = 0 then Tile.filled Orientation.NONE else Tile.none
    dirty := false
    instance_count := 0
    buffer := [] }

/-- A dirty grid holding a single filled cell. -/
def oneCellGrid : Tilemap :=
  { tiles := fun a b => if a = 0 ∧ b = 0 then Tile.filled Orientation.NONE else Tile.none
    dirty := true
    instance_count := 0
    buffer := List.replicate 256 ⟨0, 0⟩ }

/-- The direction ↔ `dirs`-index table of `get_requirement` /
`get_requirement_mut`. -/
def dirIndexList : List (Orientation × Fin 8) :=
  [(Orientation.N, 0), (Orientation.S, 1), (Orientation.E, 2), (Orientation.W, 3),
    (Orientation.NE, 4), (Orientation.NW, 5), (Orientation.SE, 6), (Orientation.SW, 7)]

theorem key_unique {l : List (GridCoordinate × TileRequirements)}
    (hnd : (l.map Prod.fst).Nodup) {g : GridCoordinate} {v : TileRequirements}
    (h1 : (g, v) ∈ l) {kv : GridCoordinate × TileRequirements} (h2 : kv ∈ l)
    (hk : kv.1 = g) : kv = (g, v) := by
  induction l with
  | nil => cases h1
  | cons a l ih =>
    rw [List.map_cons, List.nodup_cons] at hnd
    rcases List.mem_cons.mp h1 with h1' | h1' <;> rcases List.mem_cons.mp h2 with h2' | h2'
    · rw [h2', ← h1']
    · exfalso
      apply hnd.1
      have : kv.1 ∈ l.map Prod.fst := List.mem_map_of_mem _ h2'
      rw [hk] at this
      rw [← h1']
      exact this
    · exfalso
      apply hnd.1
      have hmem : (g, v).1 ∈ l.map Prod.fst := List.mem_map_of_mem _ h1'
      rw [← h2', hk]
      exact hmem
    · exact ih hnd.2 h1' h2'

theorem tile_filled_eq_match (t : Tilemap) (a b : Nat) (dx dy : Int) :
    t.tile_filled a b dx dy =
      (match offset a b dx dy with
       | some p => t.occ p.1 p.2
       | Option.none => true) := by
  unfold Tilemap.tile_filled Tilemap.get_tile_offset Tilemap.occ
  cases offset a b dx dy with
  | none => rfl
  | some p =>
    simp only [Option.map_some']
    cases t.tiles p.1 p.2 <;> rfl

theorem new_tilemap_tiles (togglesList : List (Nat × Nat)) (f : Nat → Nat) :
    (Tilemap.new togglesList f).tiles =
      (togglesList.foldl (fun t p => t.toggle p.1 p.2) initialTilemap).tiles := by
  unfold Tilemap.new
  rw [apply_changes_tiles]

theorem new_tilemap_coherent (togglesList : List (Nat × Nat))
    (htog : ∀ p ∈ togglesList, p.1 < 16 ∧ p.2 < 16) (f : Nat → Nat) :
    (Tilemap.new togglesList f).coherent :=
  coherent_apply_changes
    (coherent_foldl_toggle togglesList initialTilemap initial_coherent htog) f

/-- The number of filled cells whose orientation is matched by some rule of
the config (the quantity claim C5 says `instance_count` should equal). -/
def matchedCount (cfg : TilemapSpriteConfig) (t : Tilemap) : Nat :=
  (cellOrder.filter fun p =>
    match t.tiles p.1 p.2 with
    | Tile.filled o => !(CoordinateSet.candidates cfg.coordinates o.bits).isEmpty
    | Tile.none => false).length

/-! ### Claim theorems -/

/-- The neighbour-consistency property exactly as claim C1 states it: a stored
orientation bit is set exactly when the neighbour is in bounds and filled
(off-grid neighbours count as absent). -/
def neighborSpecAbsent (t : Tilemap) : Prop :=
  ∀ a, a < 16 → ∀ b, b < 16 → ∀ o, t.tiles a b = Tile.filled o →
    ∀ ddd ∈ dirOffsetList,
      o.contains ddd.1 =
        (match offset a b ddd.2.1 ddd.2.2 with
         | some p => t.occ p.1 p.2
         | Option.none => false)

/-- Claim C1, counterexample: on the grid produced by `Tilemap::new` with no
random toggles, after `apply_changes`, the corner cell `(0, 0)` is
`Filled(Orientation::all())`, so it contains `W` even though its western
neighbour is off-grid — the code counts off-grid neighbours as present
(`tile_filled` returns `true` out of bounds), not absent as claimed. -/
theorem C1_counterexample : ¬ neighborSpecAbsent (Tilemap.new [] fun _ => 0) := by
  intro h
  have hW := h 0 (by omega) 0 (by omega) Orientation.all rfl (Orientation.W, -1, 0)
    (by simp [dirOffsetList])
  revert hW
  decide

/-- Claim C1 (amended): for every grid obtained from `Tilemap::new` (the random
toggles abstracted as an in-bounds toggle list) by any further toggles — all
folded into the toggle list — after `apply_changes`, every `Filled(o)` cell at
`(a, b)` satisfies, for each of the 8 directions with its unit offset:
`o.contains(d)` holds exactly when the cell at the offset is Filled **or lies
off-grid** (the source's `tile_filled` counts out-of-bounds neighbours as
present). -/
theorem C1_neighbor_consistency (togglesList : List (Nat × Nat))
    (htog : ∀ p ∈ togglesList, p.1 < 16 ∧ p.2 < 16) (f : Nat → Nat)
    (a : Nat) (ha : a < 16) (b : Nat) (hb : b < 16) (o : Orientation)
    (hab : (Tilemap.new togglesList f).tiles a b = Tile.filled o) :
    ∀ ddd ∈ dirOffsetList,
      o.contains ddd.1 =
        (match offset a b ddd.2.1 ddd.2.2 with
         | some p => (Tilemap.new togglesList f).occ p.1 p.2
         | Option.none => true) := by
  intro ddd hddd
  rw [← tile_filled_eq_match]
  exact coherent_dir_spec (new_tilemap_coherent togglesList htog f) a b ha hb o hab
    ddd hddd

/-- Claim C1, witness: the amended theorem applied to the untoggled initial
grid at cell `(0, 0)`, direction `W`. -/
theorem C1_witness :
    Orientation.all.contains Orientation.W =
      (match offset 0 0 (-1) 0 with
       | some p => (Tilemap.new [] fun _ => 0).occ p.1 p.2
       | Option.none => true) :=
  C1_neighbor_consistency [] (by simp) (fun _ => 0) 0 (by omega) 0 (by omega)
    Orientation.all rfl (Orientation.W, -1, 0) (by simp [dirOffsetList])

/-- Claim C2: for every authored rule `(g, v)` in a config whose rule table
has distinct keys and whose derived index starts empty, `sync_coordinates`
registers `g` under exactly the concrete orientations `(expand v).map
toOrientation`: there are exactly `2 ^ wildcardCount v` of them, all distinct,
an orientation is among them exactly when it agrees with `v` on every
non-wildcard direction (so all `2 ^ k` wildcard combinations are covered), and
the final index holds `g` under an orientation exactly when it is among
them. -/
theorem C2_expansion_completeness (cfg : TilemapSpriteConfig)
    (hidx : cfg.coordinates = [])
    (hkeys : (cfg.orientations.map Prod.fst).Nodup)
    (g : GridCoordinate) (v : TileRequirements) (hgv : (g, v) ∈ cfg.orientations) :
    ((expand v).map TileRequirements.toOrientation).Nodup ∧
    ((expand v).map TileRequirements.toOrientation).length = 2 ^ wildcardCount v ∧
    (∀ o : Orientation,
      o ∈ (expand v).map TileRequirements.toOrientation ↔ v.matchesOrientation o) ∧
    (∀ o : Orientation,
      CoordinateSet.memPair cfg.sync_coordinates.coordinates o.bits g ↔
        o ∈ (expand v).map TileRequirements.toOrientation) := by
  refine ⟨nodup_map_toOrientation v, ?_, fun o => mem_map_toOrientation, fun o => ?_⟩
  · rw [List.length_map, length_expand]
  · rw [memPair_sync, hidx]
    constructor
    · rintro (h | ⟨kv, hkv, hg, hex⟩)
      · exact absurd h (memPair_nil _ _)
      · have hkveq : kv = (g, v) := key_unique hkeys hgv hkv hg
        rw [hkveq] at hex
        rw [mem_map_toOrientation]
        exact exists_expand_bits.mp hex
    · intro h
      rw [mem_map_toOrientation] at h
      exact Or.inr ⟨(g, v), hgv, rfl, exists_expand_bits.mpr h⟩

/-- Claim C2, witness: the full-wildcard rule of `demoCfg` registers its sheet
coordinate under the empty orientation, and its expansion has `2 ^ 8`
members. -/
theorem C2_witness :
    CoordinateSet.memPair demoCfg.sync_coordinates.coordinates Orientation.NONE.bits
      (GridCoordinate.new 0 0) ∧
    ((expand wildcardRule).map TileRequirements.toOrientation).length =
      2 ^ wildcardCount wildcardRule := by
  have h := C2_expansion_completeness demoCfg rfl (by decide) (GridCoordinate.new 0 0)
    wildcardRule (by decide)
  exact ⟨(h.2.2.2 Orientation.NONE).mpr ((h.2.2.1 Orientation.NONE).mpr (by decide)),
    h.2.1⟩

/-- Claim C3, counterexample: insert the all-neighbours-absent rule at sheet
coordinate `(1, 1)`, run `sync_coordinates`, delete the rule, and run
`sync_coordinates` again: the rule table is empty, yet the derived index still
maps the empty orientation to `(1, 1)` — a sheet coordinate of a rule no
longer in the table. -/
theorem C3_counterexample :
    (TilemapSpriteConfig.sync_coordinates
        { cfgA.sync_coordinates with orientations := [] }).orientations = [] ∧
    CoordinateSet.memPair
      (TilemapSpriteConfig.sync_coordinates
        { cfgA.sync_coordinates with orientations := [] }).coordinates
      Orientation.NONE.bits (GridCoordinate.new 1 1) := by
  exact ⟨rfl, by decide⟩

/-- Claim C3 (amended): when `sync_coordinates` runs on a config whose derived
index is empty — as after `new` or a fresh load, the index being never
persisted — the resulting index maps every concrete orientation to exactly the
union of the sheet coordinates of the current rules that match it. (After a
rule deletion a re-run does **not** remove the deleted rule's pairs, since
`sync_coordinates` only ever inserts; see the counterexample.) -/
theorem C3_sync_exact (cfg : TilemapSpriteConfig) (hidx : cfg.coordinates = [])
    (o : Orientation) (g : GridCoordinate) :
    CoordinateSet.memPair cfg.sync_coordinates.coordinates o.bits g ↔
      ∃ v, (g, v) ∈ cfg.orientations ∧ v.matchesOrientation o := by
  rw [memPair_sync, hidx]
  constructor
  · rintro (h | ⟨kv, hkv, hg, hex⟩)
    · exact absurd h (memPair_nil _ _)
    · refine ⟨kv.2, ?_, exists_expand_bits.mp hex⟩
      have : (kv.1, kv.2) = kv := rfl
      rw [← hg, this]
      exact hkv
  · rintro ⟨v, hgv, hm⟩
    exact Or.inr ⟨(g, v), hgv, rfl, exists_expand_bits.mpr hm⟩

/-- Claim C3, witness: on `cfgA` (empty index), after sync the empty
orientation maps to `(1, 1)` because the all-absent rule matches it. -/
theorem C3_witness :
    CoordinateSet.memPair cfgA.sync_coordinates.coordinates Orientation.NONE.bits
      (GridCoordinate.new 1 1) :=
  (C3_sync_exact cfgA rfl Orientation.NONE (GridCoordinate.new 1 1)).mpr
    ⟨allFalseRule, by decide, by decide⟩

/-- Claim C4, counterexample: when the file opens but its contents fail to
parse (`openResult = some none`, e.g. a file holding invalid JSON),
`new_or_load` panics on the `unwrap()` instead of falling back to the fresh
config the claim promises. -/
theorem C4_counterexample :
    TilemapSpriteConfig.new_or_load (some Option.none) 4 4 = LoadResult.panicked ∧
    TilemapSpriteConfig.new_or_load (some Option.none) 4 4 ≠
      LoadResult.loaded (TilemapSpriteConfig.new 4 4).sync_coordinates :=
  ⟨rfl, fun h => LoadResult.noConfusion h⟩

/-- Claim C4 (amended): `new_or_load` falls back to a fresh
`new(grid_width, grid_height)` only when the file cannot be **opened**; any
parse failure — including a malformed coordinate key such as `"a:3"`, which
`visit_str` rejects — makes the whole deserialization fail and `new_or_load`
panic on its `unwrap()`. On every non-panicking path `sync_coordinates` runs
before the config is returned. -/
theorem C4_new_or_load (gw gh : Nat) :
    TilemapSpriteConfig.new_or_load Option.none gw gh =
      LoadResult.loaded (TilemapSpriteConfig.new gw gh).sync_coordinates ∧
    (∀ cfg : TilemapSpriteConfig,
      TilemapSpriteConfig.new_or_load (some (some cfg)) gw gh =
        LoadResult.loaded cfg.sync_coordinates) ∧
    TilemapSpriteConfig.new_or_load (some Option.none) gw gh = LoadResult.panicked ∧
    visit_str ['a', ':', '3'] = VisitOutcome.invalid :=
  ⟨rfl, fun _ => rfl, rfl, by decide⟩

/-- Claim C5, counterexample: on a dirty grid with one filled cell and a
config with an empty rule table, `find_tile_index` matches nothing, so the
claim demands `instance_count = 0`; but `apply_changes` resolves tiles through
the hardcoded `get_sheet_pos` (which always yields a sheet position, never
consulting `find_tile_index`), appends every filled cell, and sets
`instance_count = 1`. -/
theorem C5_counterexample :
    oneCellGrid.dirty = true ∧
    matchedCount (TilemapSpriteConfig.new 4 4) oneCellGrid = 0 ∧
    (oneCellGrid.apply_changes fun _ => 0).instance_count = 1 := by
  refine ⟨rfl, by decide, ?_⟩
  rw [apply_changes_count oneCellGrid (fun _ => 0) rfl]
  decide

/-- Claim C5 (amended): when the grid is dirty, `apply_changes` walks every
cell in the fixed order (`x` outer 0..15, `y` inner 0..15), resolves every
`Filled(o)` cell through the internal `get_sheet_pos` (which always produces a
sheet position; `find_tile_index` is never consulted and no cell is skipped),
appends one `(grid position, sheet position)` entry per filled cell in that
order, sets `instance_count` to the number of **filled** cells, and clears the
dirty flag. -/
theorem C5_apply_changes (t : Tilemap) (f : Nat → Nat) (hd : t.dirty = true) :
    (t.apply_changes f).instance_count = (filledCells t).length ∧
    ((t.apply_changes f).buffer.take (filledCells t).length).map TileData.grid_pos =
      (filledCells t).map (fun p => p.2 * 16 + p.1) ∧
    (t.apply_changes f).dirty = false :=
  ⟨apply_changes_count t f hd, apply_changes_buffer t f hd,
    by rw [apply_changes_eq_fold t f hd]⟩

/-- Claim C5, witness: the amended theorem applied to the one-cell grid. -/
theorem C5_witness :
    (oneCellGrid.apply_changes fun _ => 0).instance_count =
      (filledCells oneCellGrid).length ∧
    ((oneCellGrid.apply_changes fun _ => 0).buffer.take
        (filledCells oneCellGrid).length).map TileData.grid_pos =
      (filledCells oneCellGrid).map (fun p => p.2 * 16 + p.1) ∧
    (oneCellGrid.apply_changes fun _ => 0).dirty = false :=
  C5_apply_changes oneCellGrid (fun _ => 0) rfl

/-- Claim C6, counterexample: on a grid whose single filled cell `(0, 0)`
stores a stale orientation, toggling `(1, 1)` twice does not restore the prior
state — the recomputation overwrites `(0, 0)`'s stored orientation with the
derived one. -/
theorem C6_counterexample :
    ((badGrid.toggle 1 1).toggle 1 1).tiles 0 0 ≠ badGrid.tiles 0 0 := by
  decide

/-- Claim C6 (amended): on any grid satisfying the orientation-coherence
invariant — which holds for every grid reachable from `Tilemap::new` by
toggles — toggling an in-bounds cell twice restores every cell's exact state,
stored neighbour orientations included. -/
theorem C6_toggle_involution (t : Tilemap) (hc : t.coherent) (x y : Nat)
    (hx : x < 16) (hy : y < 16) (a b : Nat) :
    ((t.toggle x y).toggle x y).tiles a b = t.tiles a b :=
  toggle_toggle_tiles hc hx hy a b

/-- Claim C6, witness: toggling `(0, 0)` twice on the initial grid leaves cell
`(5, 5)` unchanged. -/
theorem C6_witness :
    ((initialTilemap.toggle 0 0).toggle 0 0).tiles 5 5 = initialTilemap.tiles 5 5 :=
  C6_toggle_involution initialTilemap initial_coherent 0 0 (by omega) (by omega) 5 5

/-- Claim C7: every `GridCoordinate` serializes to the string `"x:y"` and
deserializes back to the identical coordinate, and consequently a whole rule
table (keys as `"x:y"` strings, values as the 8 tri-states in the fixed
direction order) round-trips exactly. -/
theorem C7_serialization_roundtrip (g : GridCoordinate)
    (t : List (GridCoordinate × TileRequirements)) :
    visit_str g.serialize = VisitOutcome.ok g ∧
    decodeTable (encodeTable t) = some t :=
  ⟨visit_str_serialize g, decodeTable_encodeTable t⟩

/-- Claim C8: `find_tile_index` returns `None` exactly when the candidate set
registered for the orientation is empty, and otherwise returns a member of
that candidate set; every candidate is a possible result of some random
draw. -/
theorem C8_find_tile_index (cfg : TilemapSpriteConfig) (o : Orientation) :
    (∀ r, cfg.find_tile_index o r = Option.none ↔
      CoordinateSet.candidates cfg.coordinates o.bits = []) ∧
    (∀ r g, cfg.find_tile_index o r = some g →
      g ∈ CoordinateSet.candidates cfg.coordinates o.bits) ∧
    (∀ g ∈ CoordinateSet.candidates cfg.coordinates o.bits,
      ∃ r, cfg.find_tile_index o r = some g) := by
  unfold TilemapSpriteConfig.find_tile_index CoordinateSet.get CoordinateSet.candidates
  cases hs : CoordinateSet.getSet cfg.coordinates o.bits with
  | none =>
    exact ⟨fun r => ⟨fun _ => rfl, fun _ => rfl⟩,
      fun r g h => Option.noConfusion h,
      fun g hg => absurd hg (List.not_mem_nil g)⟩
  | some s =>
    refine ⟨fun r => ?_, fun r g h => ?_, fun g hg => ?_⟩
    · simp only [Option.getD_some]
      constructor
      · intro h
        by_contra hne
        have hlt : r % s.length < s.length :=
          Nat.mod_lt _ (List.length_pos.mpr hne)
        rw [List.get?_eq_get hlt] at h
        cases h
      · intro h
        rw [h]
        rfl
    · simp only [Option.getD_some]
      exact List.get?_mem h
    · simp only [Option.getD_some] at hg
      obtain ⟨n, hn⟩ := List.mem_iff_get?.mp hg
      have hlt : n < s.length := (List.get?_eq_some.mp hn).1
      refine ⟨n, ?_⟩
      show s.get? (n % s.length) = some g
      rw [Nat.mod_eq_of_lt hlt]
      exact hn

/-- Claim C8, witness: on a config whose index maps the empty orientation to
the single candidate `(2, 3)`, `find_tile_index` returns it, and it belongs to
the candidate set. -/
theorem C8_witness :
    c8Cfg.find_tile_index Orientation.NONE 0 = some (GridCoordinate.new 2 3) ∧
    GridCoordinate.new 2 3 ∈
      CoordinateSet.candidates c8Cfg.coordinates Orientation.NONE.bits :=
  ⟨by decide, (C8_find_tile_index c8Cfg Orientation.NONE).2.1 0 (GridCoordinate.new 2 3)
    (by decide)⟩

/-- Claim C9: `get_requirement` and `get_requirement_mut` succeed on each of
the 8 single-direction constants, returning (a reference to) the tri-state at
the documented `dirs` index, and signal an explicit failure (`None` / `Err`)
on every other `Orientation` value — the empty set and all multi-bit
combinations included. -/
theorem C9_get_requirement (r : TileRequirements) :
    (∀ di ∈ dirIndexList,
      r.get_requirement di.1 = some (r.dirs di.2) ∧
      TileRequirements.get_requirement_mut di.1 = Except.ok di.2) ∧
    (∀ o : Orientation, o ∉ dirIndexList.map Prod.fst →
      r.get_requirement o = Option.none ∧
      TileRequirements.get_requirement_mut o = Except.error ()) := by
  constructor
  · intro di hdi
    fin_cases hdi <;> exact ⟨rfl, rfl⟩
  · intro o ho
    simp only [dirIndexList, List.map_cons, List.map_nil, List.mem_cons,
      List.not_mem_nil, or_false, not_or] at ho
    obtain ⟨h1, h2, h3, h4, h5, h6, h7, h8⟩ := ho
    constructor
    · simp [TileRequirements.get_requirement, h1, h2, h3, h4, h5, h6, h7, h8]
    · simp [TileRequirements.get_requirement_mut, h1, h2, h3, h4, h5, h6, h7, h8]

/-- Claim C9, witness: on the all-wildcard rule, `get_requirement` succeeds on
`N` and fails on the empty orientation. -/
theorem C9_witness :
    wildcardRule.get_requirement Orientation.N = some (wildcardRule.dirs 0) ∧
    wildcardRule.get_requirement Orientation.NONE = Option.none :=
  ⟨((C9_get_requirement wildcardRule).1 (Orientation.N, 0) (by decide)).1,
    ((C9_get_requirement wildcardRule).2 Orientation.NONE (by decide)).1⟩

/-- Claim C10: `sync_coordinates` is monotone on the derived index — it only
inserts, so every (orientation, sheet coordinate) pair present before a call
is still present afterwards; in particular pairs registered for a rule later
deleted from the table survive re-syncs. -/
theorem C10_sync_monotone (cfg : TilemapSpriteConfig) (b : Nat) (g : GridCoordinate)
    (h : CoordinateSet.memPair cfg.coordinates b g) :
    CoordinateSet.memPair cfg.sync_coordinates.coordinates b g :=
  (memPair_sync cfg b g).mpr (Or.inl h)

/-- Claim C10, witness: the pair registered for `cfgA`'s rule survives a
re-sync after the rule is deleted from the table. -/
theorem C10_witness :
    CoordinateSet.memPair
      (TilemapSpriteConfig.sync_coordinates
        { cfgA.sync_coordinates with orientations := [] }).coordinates
      Orientation.NONE.bits (GridCoordinate.new 1 1) :=
  C10_sync_monotone { cfgA.sync_coordinates with orientations := [] }
    Orientation.NONE.bits (GridCoordinate.new 1 1) (by decide)

end MoleMan
